import Mathlib

/-!
Verification of the citation-to-highlight resolution pipeline of the
document-agent repository.

The subject is the `POST /api/highlight` route handler, present in two
revisions:

* `RouteA` embeds `src/src/app/api/highlight/route.ts` (direct-match-first,
  raw-substring LLM gate, two-tier chunk locator);
* `RouteB` embeds `src/unnamed/part_006` (LLM-first with the
  `normalizeForComparison` normalizer, normalized LLM gate, three-tier
  chunk locator).

Modelling conventions (shallow embedding):

* Strings are Lean `String`s (sequences of unicode scalar values);
  JavaScript string operations (`trim`, `includes`, `match`, the regex
  built by `escapeForRegex(...).replace(/\s+/g, '\s+')`) are embedded as
  executable functions over `List Char`.
* JSON numbers are modelled as integers (`Int`); the handlers under
  verification only stringify and range-compare them.
* `Char.toLowerCase` is modelled by the ASCII case mapping `jsToLower`;
  the properties used (idempotence, preservation of the whitespace and
  dash character classes) hold for the full Unicode simple mapping as
  well.
* External collaborators (the Supabase chunk store, the OpenAI chat
  call, and the JavaScript builtin `JSON.parse`) are supplied by an
  explicit environment `Env`; a throwing call is an `Except.error`.  The
  store queries a handler issues are returned alongside its response so
  that dispatch order and short-circuiting are provable facts.
* `console.log` calls are not modelled (they are diagnostics only).
-/

/-- The JavaScript `\s` character class (also the character set removed by
`String.prototype.trim`): space, tab, line terminators, NBSP and the other
Unicode space separators. -/
def isJsWs (c : Char) : Bool :=
  c.toNat == 32 || c.toNat == 9 || c.toNat == 10 || c.toNat == 13 || c.toNat == 11 ||
  c.toNat == 12 || c.toNat == 0xA0 || c.toNat == 0x1680 ||
  (decide (0x2000 ≤ c.toNat) && decide (c.toNat ≤ 0x200A)) ||
  c.toNat == 0x2028 || c.toNat == 0x2029 || c.toNat == 0x202F || c.toNat == 0x205F ||
  c.toNat == 0x3000 || c.toNat == 0xFEFF

/-- The dash variants collapsed by `normalizeForComparison`:
U+2010 through U+2015 (hyphen, non-breaking hyphen, figure dash, en dash,
em dash, horizontal bar) — a contiguous code-point range. -/
def isJsDash (c : Char) : Bool :=
  decide (0x2010 ≤ c.toNat) && decide (c.toNat ≤ 0x2015)

/-- ASCII model of `String.prototype.toLowerCase` (see the header file
comment for the modelling convention). -/
def jsToLower (c : Char) : Char :=
  if 65 ≤ c.toNat ∧ c.toNat ≤ 90 then Char.ofNat (c.toNat + 32) else c

/-- The character replacement of `.replace(/[‐‑‒–—―]/g, '-')`. -/
def dashChar (c : Char) : Char := if isJsDash c then '-' else c

/-- One pass of `.replace(/[\s ]+/g, ' ')`: each maximal run of
whitespace characters becomes a single ASCII space.  `prevWs` records
whether the previous character belonged to a whitespace run. -/
def collapseWsAux (prevWs : Bool) : List Char → List Char
  | [] => []
  | c :: rest =>
    if isJsWs c then
      cond prevWs (collapseWsAux true rest) (' ' :: collapseWsAux true rest)
    else c :: collapseWsAux false rest

/-- `.replace(/[\s ]+/g, ' ')` on a character list. -/
def collapseWs (l : List Char) : List Char := collapseWsAux false l

/-- `String.prototype.trim` on a character list (strip leading and
trailing JavaScript whitespace). -/
def trimWs (l : List Char) : List Char :=
  ((l.dropWhile isJsWs).reverse.dropWhile isJsWs).reverse

/-- `String.prototype.trim`. -/
def jsTrim (s : String) : String := String.mk (trimWs s.data)

/-- `normalizeForComparison` from part_006 lines 13-18: collapse
whitespace runs to one space, map the dash variants to '-', trim, and
lower-case — in that order. -/
def normalizeForComparison (s : String) : String :=
  String.mk ((trimWs ((collapseWs s.data).map dashChar)).map jsToLower)

/-- Decides whether the first list is a leading segment of the second. -/
def startsWithL : List Char → List Char → Bool
  | [], _ => true
  | _ :: _, [] => false
  | a :: s, b :: l => a == b && startsWithL s l

/-- Decides whether `sub` occurs contiguously inside the second list:
the semantics of `String.prototype.includes`. -/
def hasSubL (sub : List Char) : List Char → Bool
  | [] => startsWithL sub []
  | c :: rest => startsWithL sub (c :: rest) || hasSubL sub rest

/-- `String.prototype.includes`. -/
def jsIncludes (hay sub : String) : Bool := hasSubL sub.data hay.data

/-- No two adjacent characters of the list are both whitespace. -/
def noAdjWs : List Char → Prop
  | [] => True
  | [_] => True
  | a :: b :: rest => ¬(isJsWs a = true ∧ isJsWs b = true) ∧ noAdjWs (b :: rest)

/-- Whether the character before the current position (after scanning
`l` starting from state `flag`) belongs to a whitespace run. -/
def flagAfter (flag : Bool) : List Char → Bool
  | [] => flag
  | c :: rest => flagAfter (isJsWs c) rest

/-- Tokens of the pattern built by
`new RegExp(escapeForRegex(snippet).replace(/\s+/g, String.raw...), 'i')`:
after escaping, every literal whitespace run of the snippet becomes a
one-or-more-whitespace matcher and every other character matches itself
case-insensitively (the `i` flag). -/
inductive RTok where
  | lit (c : Char)
  | wsRun
  deriving Repr, DecidableEq

def toTokensAux (inWs : Bool) : List Char → List RTok
  | [] => []
  | c :: rest =>
    if isJsWs c then
      cond inWs (toTokensAux true rest) (RTok.wsRun :: toTokensAux true rest)
    else RTok.lit c :: toTokensAux false rest

def toTokens (l : List Char) : List RTok := toTokensAux false l

/-- Case-insensitive character comparison (the regex `i` flag). -/
def ciEq (a b : Char) : Bool := jsToLower a == jsToLower b

/-- Matching the token pattern against a leading segment of `cs`,
returning the consumed characters.  A `wsRun` token consumes the maximal
whitespace run; for these patterns this agrees with the backtracking
regex semantics because a literal token can never match a whitespace
character. -/
def matchToks : List RTok → List Char → Option (List Char)
  | [], _ => some []
  | RTok.lit _ :: _, [] => none
  | RTok.lit a :: ts, c :: cs =>
    if ciEq a c then (matchToks ts cs).map (c :: ·) else none
  | RTok.wsRun :: ts, cs =>
    if cs.takeWhile isJsWs = [] then none
    else (matchToks ts (cs.dropWhile isJsWs)).map (cs.takeWhile isJsWs ++ ·)

/-- The leftmost match of the token pattern: `content.match(regex)`. -/
def searchToks (ts : List RTok) : List Char → Option (List Char)
  | [] => matchToks ts []
  | c :: rest =>
    match matchToks ts (c :: rest) with
    | some m => some m
    | none => searchToks ts rest

/-- `content.match(regex)?.[0]` for the whitespace-tolerant
case-insensitive pattern built from the cleaned snippet. -/
def jsRegexMatch (cleanedSnippet content : String) : Option String :=
  (searchToks (toTokens cleanedSnippet.data) content.data).map String.mk

/-- `page.match(/\d+/)?.[0]`: the first maximal run of ASCII digits. -/
def firstDigitRun (s : String) : Option String :=
  if (s.data.dropWhile (fun c => !c.isDigit)) = [] then none
  else some (String.mk ((s.data.dropWhile (fun c => !c.isDigit)).takeWhile Char.isDigit))

/-- JavaScript values as far as the handlers inspect them (`typeof`
checks, truthiness, stringification).  Numbers are modelled as integers;
objects and arrays do not occur in the inspected positions. -/
inductive JsVal where
  | vUndefined
  | vNull
  | vBool (b : Bool)
  | vNum (n : Int)
  | vStr (s : String)
  deriving Repr, DecidableEq

/-- JavaScript truthiness of a modelled value. -/
def truthy : JsVal → Bool
  | JsVal.vUndefined => false
  | JsVal.vNull => false
  | JsVal.vBool b => b
  | JsVal.vNum n => n != 0
  | JsVal.vStr s => s != ""

/-- `typeof page === 'number' ? page.toString() : page`
(route.ts line 123 / part_006 line 141). -/
def pageValueOf : JsVal → JsVal
  | JsVal.vNum n => JsVal.vStr (toString n)
  | v => v

def decDigits (l : List Char) : Option Nat :=
  if l = [] then none
  else if l.all Char.isDigit then
    some (l.foldl (fun a c => a * 10 + (c.toNat - 48)) 0)
  else none

/-- Partial model of the JavaScript `Number(string)` coercion: a
whitespace-trimmed optional-sign decimal integer (the only numeric
strings chunk metadata carries); a blank string coerces to 0; anything
else — including the fractional, hex and exponent forms not modelled
here — is NaN (`none`). -/
def jsStringToNumber (s : String) : Option Int :=
  match trimWs s.data with
  | [] => some 0
  | '-' :: rest => (decDigits rest).map (fun n => -(n : Int))
  | '+' :: rest => (decDigits rest).map (fun n => (n : Int))
  | l => (decDigits l).map (fun n => (n : Int))

/-- `toNumberOrNull` (route.ts lines 40-49 / part_006 lines 50-59):
finite numbers pass through, strings go through `Number(...)`, all else
is null.  (NaN and Infinity are not representable in the integer model,
so `Number.isFinite` holds on the number branch.) -/
def toNumberOrNull : JsVal → Option Int
  | JsVal.vNum n => some n
  | JsVal.vStr s => jsStringToNumber s
  | _ => none

/-- `toStringOrNull` (route.ts line 51 / part_006 line 61). -/
def toStringOrNull : JsVal → Option String
  | JsVal.vStr s => some s
  | _ => none

structure LocInfo where
  pageNumber : JsVal := JsVal.vUndefined
  deriving Repr, DecidableEq

/-- The metadata fields the handlers read (`source`, `page`, `orgUrl`,
`loc.pageNumber`). -/
structure Metadata where
  source : JsVal := JsVal.vUndefined
  page : JsVal := JsVal.vUndefined
  orgUrl : JsVal := JsVal.vUndefined
  loc : Option LocInfo := none
  deriving Repr, DecidableEq

instance : Inhabited Metadata := ⟨{}⟩

/-- A `document_chunks` row as selected (`id, content, metadata`). -/
structure ChunkRecord where
  id : Int
  content : Option String := none
  metadata : Option Metadata := none
  deriving Repr, DecidableEq

structure SerializedChunk where
  id : Int
  text : String
  page : Option Int
  source : Option String
  deriving Repr, DecidableEq

/-- `serializeChunks` (route.ts lines 53-65 / part_006 lines 63-75). -/
def serializeChunks (chunks : List ChunkRecord) : List SerializedChunk :=
  chunks.map fun chunk =>
    let metadata := chunk.metadata.getD {}
    let pageValue := toNumberOrNull metadata.page
    let locPage := toNumberOrNull (match metadata.loc with
      | some l => l.pageNumber
      | none => JsVal.vUndefined)
    { id := chunk.id
      text := chunk.content.getD ""
      page := pageValue.or locPage
      source := toStringOrNull metadata.source }

structure Highlight where
  text : String
  chunkId : Int
  deriving Repr, DecidableEq

/-- The shapes of array elements distinguished by `parseLlmResponse`. -/
inductive LlmPart where
  | pStr (s : String)
  | pObjText (t : Option String)
  | pOther
  deriving Repr, DecidableEq

/-- The shapes of `llmResponse.content` distinguished by
`parseLlmResponse`: a falsy value, a string, an array of parts, an
object carrying a `text` property, or any other truthy value. -/
inductive LlmRaw where
  | rNullish
  | rStr (s : String)
  | rArr (parts : List LlmPart)
  | rObjWithText (t : Option String)
  | rOther
  deriving Repr, DecidableEq

/-- `parseLlmResponse` (route.ts lines 75-103 / part_006 lines 85-113). -/
def parseLlmResponse : LlmRaw → Option String
  | LlmRaw.rNullish => none
  | LlmRaw.rStr s => if s = "" then none else some s
  | LlmRaw.rArr parts => some (String.join (parts.map (fun p =>
      match p with
      | LlmPart.pStr s => s
      | LlmPart.pObjText t => t.getD ""
      | LlmPart.pOther => "")))
  | LlmRaw.rObjWithText t => some (t.getD "")
  | LlmRaw.rOther => none

/-- `trimmed.slice(jsonStart, jsonEnd + 1)` for
`jsonStart = trimmed.indexOf('\x7b')` and
`jsonEnd = trimmed.lastIndexOf('\x7d')`, guarded by
`jsonStart >= 0 && jsonEnd >= jsonStart` (route.ts lines 187-191). -/
def braceSlice (trimmed : String) : Option String :=
  match trimmed.data.findIdx? (· == '\x7b'), trimmed.data.reverse.findIdx? (· == '\x7d') with
  | some js, some k =>
    let je := trimmed.data.length - 1 - k
    if js ≤ je then some (String.mk ((trimmed.data.drop js).take (je + 1 - js)))
    else none
  | _, _ => none

/-- The two properties the handlers read off the parsed LLM JSON; a
missing key (or a non-object parse result) reads as `undefined`. -/
structure ParsedLlmJson where
  chunkIndex : JsVal := JsVal.vUndefined
  exactText : JsVal := JsVal.vUndefined
  deriving Repr, DecidableEq

/-- An equality-filtered, optionally capped query against the
`document_chunks` table, recorded as the `.eq(column, value)` filters in
application order plus the `.limit(n)` cap. -/
structure Query where
  filters : List (String × JsVal)
  cap : Option Nat := none
  deriving Repr, DecidableEq

/-- The supabase result shape `\x7b data, error \x7d`; `error` records
truthiness of the error object. -/
structure StoreResult where
  data : Option (List ChunkRecord) := none
  error : Bool := false
  deriving Repr, DecidableEq

/-- The ambient collaborators of one request: the `process.env`
configuration strings, the chunk store, the chat model and the
`JSON.parse` builtin.  An `Except.error` models a thrown exception. -/
structure Env where
  supabaseUrl : Option String
  supabaseAnonKey : Option String
  openaiKey : Option String
  store : Query → StoreResult
  llmInvoke : String → String → Except Unit LlmRaw
  jsonParse : String → Except Unit ParsedLlmJson

/-- Truthiness of a `process.env` entry (absent and `''` are falsy). -/
def envTruthy : Option String → Bool
  | some s => s != ""
  | none => false

/-- The destructured request body
`const \x7b filename, page, answerSnippet = '', orgUrl \x7d = body ?? \x7b\x7d`.
`answerSnippet` is modelled at its declared type (a string, defaulting
to `''` when absent); the validated fields keep their raw
JavaScript-value form. -/
structure Body where
  filename : JsVal := JsVal.vUndefined
  page : JsVal := JsVal.vUndefined
  answerSnippet : String := ""
  orgUrl : JsVal := JsVal.vUndefined
  deriving Repr, DecidableEq

/-- The three response shapes of the handlers: the 400 validation
rejection, a 500 with its message, and the 200 payload
`\x7b highlight, chunks \x7d`. -/
inductive Response where
  | badRequest
  | serverError (msg : String)
  | ok (highlight : Option Highlight) (chunks : List SerializedChunk)
  deriving Repr, DecidableEq

/-- Result of the chunk-location phase, with the store queries issued,
in dispatch order. -/
inductive LocOutcome where
  | storeError (log : List Query)
  | located (chunks : List ChunkRecord) (log : List Query)
  deriving Repr, DecidableEq

/-- The exact-page query
`.eq('metadata->>source', filename).eq('metadata->>page', pageValue)`
plus the org filter when `orgUrl` is truthy. -/
def tier1Query (filename pageValue orgUrl : JsVal) : Query :=
  { filters := [("metadata->>source", filename), ("metadata->>page", pageValue)]
      ++ (if truthy orgUrl then [("metadata->>orgUrl", orgUrl)] else []) }

/-- The alternate-page-field query of part_006
`.eq('metadata->>source', filename).eq('metadata->loc->>pageNumber', digits)`
plus the org filter. -/
def tier2Query (filename : JsVal) (digits : String) (orgUrl : JsVal) : Query :=
  { filters := [("metadata->>source", filename),
      ("metadata->loc->>pageNumber", JsVal.vStr digits)]
      ++ (if truthy orgUrl then [("metadata->>orgUrl", orgUrl)] else []) }

/-- The page-free capped query
`.eq('metadata->>source', filename).limit(8)` plus the org filter. -/
def tier3Query (filename orgUrl : JsVal) : Query :=
  { filters := [("metadata->>source", filename)]
      ++ (if truthy orgUrl then [("metadata->>orgUrl", orgUrl)] else [])
    cap := some 8 }

/-- The tier-2 page string of part_006 lines 162-169: numbers are
stringified whole, strings contribute their first digit run. -/
def pageNumberFallback : JsVal → Option String
  | JsVal.vNum n => some (toString n)
  | JsVal.vStr s => firstDigitRun s
  | _ => none

namespace RouteA

/-- The chunk loop of `findDirectMatch` (route.ts lines 19-35). -/
def directLoop (cleanedSnippet : String) : List ChunkRecord → Option Highlight
  | [] => none
  | chunk :: rest =>
    let content := chunk.content.getD ""
    if content = "" then directLoop cleanedSnippet rest
    else if jsIncludes content cleanedSnippet then
      some { text := cleanedSnippet, chunkId := chunk.id }
    else
      match jsRegexMatch cleanedSnippet content with
      | some m =>
        if m = "" then directLoop cleanedSnippet rest
        else some { text := m, chunkId := chunk.id }
      | none => directLoop cleanedSnippet rest

/-- `findDirectMatch` (route.ts lines 13-38): the raw trimmed snippet
first, then the whitespace-tolerant case-insensitive regex, chunk by
chunk in the supplied order. -/
def findDirectMatch (chunks : List ChunkRecord) (snippet : String) : Option Highlight :=
  let cleanedSnippet := jsTrim snippet
  if cleanedSnippet = "" then none
  else directLoop cleanedSnippet chunks

/-- The system message of the extraction call (route.ts line 181). -/
def systemMessage : String := "Extract literal supporting spans from source chunks."

/-- `buildLlmPrompt` (route.ts lines 67-73). -/
def buildLlmPrompt (answerSnippet : String) (chunks : List ChunkRecord) : String :=
  let chunkDescriptions := String.intercalate "\n\n"
    (chunks.enum.map (fun p =>
      "Chunk " ++ toString p.1 ++ " (id: " ++ toString p.2.id ++ "):\n\"\"\""
        ++ (p.2.content.getD "") ++ "\"\"\""))
  "You will receive an answer snippet from an assistant and several source chunks that came from a PDF.\n\nReturn a JSON object with exactly these keys: \"chunkIndex\" (number) and \"exactText\" (string).\n- \"chunkIndex\" must be the zero-based index of the chunk provided below.\n- \"exactText\" must be a literal substring copied from that chunk (including casing and punctuation).\n- If there is no literal match, respond with \x7b\"chunkIndex\": -1, \"exactText\": \"\"\x7d.\n- Do not add explanations or commentary.\n\nAnswer snippet:\n\"\"\"" ++ answerSnippet ++ "\"\"\"\n\nSource chunks:\n" ++ chunkDescriptions

/-- The acceptance gate on the parsed LLM JSON (route.ts lines
194-205): `chunkIndex` must be an in-range number and `exactText` a
non-empty string occurring verbatim in the chosen chunk's content. -/
def llmGate (chunks : List ChunkRecord) (parsed : ParsedLlmJson) : Option Highlight :=
  match parsed.chunkIndex with
  | JsVal.vNum i =>
    match parsed.exactText with
    | JsVal.vStr exactText =>
      if 0 ≤ i ∧ i < (chunks.length : Int) then
        match chunks.get? i.toNat with
        | none => none
        | some targetChunk =>
          if exactText ≠ "" ∧ jsIncludes (targetChunk.content.getD "") exactText = true
          then some { text := exactText, chunkId := targetChunk.id }
          else none
      else none
    | _ => none
  | _ => none

/-- Brace extraction, `JSON.parse` and the gate, applied to the shaped
model output (route.ts lines 186-207). -/
def llmFromContent (env : Env) (chunks : List ChunkRecord) (rawContent : String) :
    Option Highlight :=
  if rawContent = "" then none
  else
    match braceSlice (jsTrim rawContent) with
    | none => none
    | some maybeJson =>
      match env.jsonParse maybeJson with
      | Except.error _ => none
      | Except.ok parsed => llmGate chunks parsed

/-- The LLM extraction stage (route.ts lines 171-211): the body of the
`try` block.  A thrown step (`llm.invoke`, `JSON.parse`) surfaces as
`Except.error` and is caught to `none`, as is every failed check.  The
acceptance gate is the raw `content.includes(parsed.exactText)`. -/
def llmExtract (env : Env) (answerSnippet : String) (chunks : List ChunkRecord) :
    Option Highlight :=
  match env.llmInvoke systemMessage (buildLlmPrompt answerSnippet chunks) with
  | Except.error _ => none
  | Except.ok raw =>
    match parseLlmResponse raw with
    | none => none
    | some rawContent => llmFromContent env chunks rawContent

/-- The chunk-location phase (route.ts lines 125-157): the exact-page
query, then — only when it yields nothing — the page-free capped
query.  The log lists the store queries in dispatch order. -/
def locateChunks (filename pageValue orgUrl : JsVal) (env : Env) : LocOutcome :=
  let q1 := tier1Query filename pageValue orgUrl
  let r1 := env.store q1
  if r1.error then LocOutcome.storeError [q1]
  else
    let chunks := r1.data.getD []
    if chunks.isEmpty then
      let q3 := tier3Query filename orgUrl
      let r3 := env.store q3
      LocOutcome.located (r3.data.getD []) [q1, q3]
    else LocOutcome.located chunks [q1]

/-- `POST` (route.ts lines 105-221): validate, locate, direct-match
first, then the guarded LLM stage, else the unhighlighted fallback. -/
def POST (body : Body) (env : Env) : Response × List Query :=
  if truthy body.filename = false ∨ body.page = JsVal.vUndefined then
    (Response.badRequest, [])
  else if envTruthy env.supabaseUrl = false ∨ envTruthy env.supabaseAnonKey = false then
    (Response.serverError "Missing Supabase configuration", [])
  else
    let pageValue := pageValueOf body.page
    match locateChunks body.filename pageValue body.orgUrl env with
    | LocOutcome.storeError log => (Response.serverError "Failed to fetch chunks", log)
    | LocOutcome.located chunks log =>
      if chunks.isEmpty then (Response.ok none [], log)
      else
        match (if body.answerSnippet ≠ "" then findDirectMatch chunks body.answerSnippet
               else none) with
        | some directMatch => (Response.ok (some directMatch) (serializeChunks chunks), log)
        | none =>
          let highlightResult :=
            if body.answerSnippet ≠ "" ∧ envTruthy env.openaiKey = true then
              llmExtract env body.answerSnippet chunks
            else none
          (Response.ok highlightResult (serializeChunks chunks), log)

end RouteA

namespace RouteB

/-- The chunk loop of `findDirectMatch` (part_006 lines 31-45): the
normalized substring test, then original-span recovery by regex with a
fallback to the cleaned snippet. -/
def directLoop (cleanedSnippet normalizedSnippet : String) :
    List ChunkRecord → Option Highlight
  | [] => none
  | chunk :: rest =>
    let content := chunk.content.getD ""
    if content = "" then directLoop cleanedSnippet normalizedSnippet rest
    else if jsIncludes (normalizeForComparison content) normalizedSnippet then
      some { text := (match jsRegexMatch cleanedSnippet content with
                      | some m => m
                      | none => cleanedSnippet),
             chunkId := chunk.id }
    else directLoop cleanedSnippet normalizedSnippet rest

/-- `findDirectMatch` (part_006 lines 20-48). -/
def findDirectMatch (chunks : List ChunkRecord) (snippet : String) : Option Highlight :=
  let cleanedSnippet := jsTrim snippet
  if cleanedSnippet = "" then none
  else
    let normalizedSnippet := normalizeForComparison cleanedSnippet
    if normalizedSnippet = "" then none
    else directLoop cleanedSnippet normalizedSnippet chunks

/-- The system message of the extraction call (part_006 line 229). -/
def systemMessage : String :=
  "Identify the exact supporting passage in the provided source chunks."

/-- `buildLlmPrompt` (part_006 lines 77-83). -/
def buildLlmPrompt (answerSnippet : String) (chunks : List ChunkRecord) : String :=
  let chunkDescriptions := String.intercalate "\n\n"
    (chunks.enum.map (fun p =>
      "Chunk " ++ toString p.1 ++ " (id: " ++ toString p.2.id ++ "):\n\"\"\""
        ++ (p.2.content.getD "") ++ "\"\"\""))
  "You will receive a passage produced by an assistant and several source chunks taken from a PDF.\n\nDetermine which chunk most directly supports the answer. Return a JSON object with exactly these keys: \"chunkIndex\" (number) and \"exactText\" (string).\n- \"chunkIndex\" must be the zero-based index of the chunk provided below.\n- \"exactText\" must be text copied exactly from that chunk (preserve whitespace, punctuation, and line breaks as they appear).\n- If the answer snippet is empty, select the chunk that most strongly supports the implied question and choose the most relevant sentence or short paragraph from it.\n- Never fabricate text. If nothing is relevant, respond with \x7b\"chunkIndex\": -1, \"exactText\": \"\"\x7d.\n- Do not include commentary.\n\nAssistant answer snippet:\n\"\"\"" ++ answerSnippet ++ "\"\"\"\n\nSource chunks:\n" ++ chunkDescriptions

/-- The acceptance gate on the parsed LLM JSON (part_006 lines
242-256): as in route.ts, but the occurrence test compares normalized
forms:
`normalizeForComparison(content).includes(normalizeForComparison(parsed.exactText))`. -/
def llmGate (chunks : List ChunkRecord) (parsed : ParsedLlmJson) : Option Highlight :=
  match parsed.chunkIndex with
  | JsVal.vNum i =>
    match parsed.exactText with
    | JsVal.vStr exactText =>
      if 0 ≤ i ∧ i < (chunks.length : Int) then
        match chunks.get? i.toNat with
        | none => none
        | some targetChunk =>
          if exactText ≠ "" ∧
              jsIncludes (normalizeForComparison (targetChunk.content.getD ""))
                (normalizeForComparison exactText) = true
          then some { text := exactText, chunkId := targetChunk.id }
          else none
      else none
    | _ => none
  | _ => none

/-- Brace extraction, `JSON.parse` and the gate, applied to the shaped
model output (part_006 lines 234-258). -/
def llmFromContent (env : Env) (chunks : List ChunkRecord) (rawContent : String) :
    Option Highlight :=
  if rawContent = "" then none
  else
    match braceSlice (jsTrim rawContent) with
    | none => none
    | some maybeJson =>
      match env.jsonParse maybeJson with
      | Except.error _ => none
      | Except.ok parsed => llmGate chunks parsed

/-- The LLM extraction stage (part_006 lines 219-262): the body of the
`try` block.  A thrown step surfaces as `Except.error` and is caught to
`none`, as is every failed check. -/
def llmExtract (env : Env) (answerSnippet : String) (chunks : List ChunkRecord) :
    Option Highlight :=
  match env.llmInvoke systemMessage (buildLlmPrompt answerSnippet chunks) with
  | Except.error _ => none
  | Except.ok raw =>
    match parseLlmResponse raw with
    | none => none
    | some rawContent => llmFromContent env chunks rawContent

/-- The chunk-location phase (part_006 lines 143-202): the exact-page
query; when empty and a page string is extractable, the
`metadata->loc->>pageNumber` retry (whose store error part_006 ignores —
only `data` is read); when still empty, the page-free capped query. -/
def locateChunks (filename page pageValue orgUrl : JsVal) (env : Env) : LocOutcome :=
  let q1 := tier1Query filename pageValue orgUrl
  let r1 := env.store q1
  if r1.error then LocOutcome.storeError [q1]
  else
    let chunks1 := r1.data.getD []
    let step2 : List ChunkRecord × List Query :=
      if chunks1.isEmpty then
        match pageNumberFallback page with
        | some digits =>
          let q2 := tier2Query filename digits orgUrl
          let r2 := env.store q2
          (match r2.data with
           | some locChunks => if locChunks.isEmpty then [] else locChunks
           | none => [], [q1, q2])
        | none => ([], [q1])
      else (chunks1, [q1])
    if step2.1.isEmpty then
      let q3 := tier3Query filename orgUrl
      let r3 := env.store q3
      LocOutcome.located (r3.data.getD []) (step2.2 ++ [q3])
    else LocOutcome.located step2.1 step2.2

/-- `POST` (part_006 lines 115-288): validate, locate, LLM extraction
first (whenever a key is configured), then the direct matcher, else the
unhighlighted fallback. -/
def POST (body : Body) (env : Env) : Response × List Query :=
  if truthy body.filename = false ∨ body.page = JsVal.vUndefined then
    (Response.badRequest, [])
  else if envTruthy env.supabaseUrl = false ∨ envTruthy env.supabaseAnonKey = false then
    (Response.serverError "Missing Supabase configuration", [])
  else
    let pageValue := pageValueOf body.page
    match locateChunks body.filename body.page pageValue body.orgUrl env with
    | LocOutcome.storeError log => (Response.serverError "Failed to fetch chunks", log)
    | LocOutcome.located chunks log =>
      if chunks.isEmpty then (Response.ok none [], log)
      else
        let highlightResult :=
          if envTruthy env.openaiKey = true then llmExtract env body.answerSnippet chunks
          else none
        let finalResult := match highlightResult with
          | some h => some h
          | none => findDirectMatch chunks body.answerSnippet
        (Response.ok finalResult (serializeChunks chunks), log)

end RouteB

/-- The store-query log of a location outcome. -/
def locLog : LocOutcome → List Query
  | LocOutcome.storeError log => log
  | LocOutcome.located _ log => log

/-- A small fixture chunk for exercising the handlers concretely. -/
def demoChunk : ChunkRecord := { id := 1, content := some "ab" }

def demoBody : Body :=
  { filename := JsVal.vStr "f.pdf", page := JsVal.vNum 5, answerSnippet := "ab",
    orgUrl := JsVal.vUndefined }

/-- A fixture environment: every uncapped two-filter query finds
`demoChunk`, the model call throws, `JSON.parse` throws. -/
def demoEnv : Env :=
  { supabaseUrl := some "u", supabaseAnonKey := some "k", openaiKey := some "o",
    store := fun q =>
      if q.cap = none ∧ q.filters.length = 2
      then { data := some [demoChunk], error := false }
      else { data := some [], error := false },
    llmInvoke := fun _ _ => Except.error (),
    jsonParse := fun _ => Except.error () }

/-- A fixture environment whose model call answers a JSON object that
the fixture `JSON.parse` reads as `chunkIndex 0 / exactText "ab"`. -/
def demoEnvLlm : Env :=
  { supabaseUrl := some "u", supabaseAnonKey := some "k", openaiKey := some "o",
    store := fun _ => { data := some [demoChunk], error := false },
    llmInvoke := fun _ _ => Except.ok (LlmRaw.rStr "\x7b\x7d"),
    jsonParse := fun _ =>
      Except.ok { chunkIndex := JsVal.vNum 0, exactText := JsVal.vStr "ab" } }

/-- A store whose every query answers no rows. -/
def c6Env : Env :=
  { supabaseUrl := some "u", supabaseAnonKey := some "k", openaiKey := none,
    store := fun _ => { data := some [], error := false },
    llmInvoke := fun _ _ => Except.error (),
    jsonParse := fun _ => Except.error () }

/-- A store where only the alternate-page query answers a row. -/
def c6Env2 : Env :=
  { supabaseUrl := some "u", supabaseAnonKey := some "k", openaiKey := none,
    store := fun q =>
      if (q.filters.get? 1).map Prod.fst = some "metadata->loc->>pageNumber"
      then { data := some [demoChunk], error := false }
      else { data := some [], error := false },
    llmInvoke := fun _ _ => Except.error (),
    jsonParse := fun _ => Except.error () }

theorem lower_toNat (c : Char) :
    (jsToLower c).toNat = if 65 ≤ c.toNat ∧ c.toNat ≤ 90 then c.toNat + 32 else c.toNat := by
  unfold jsToLower
  split
  · next h =>
    have hv : (c.toNat + 32).isValidChar := by
      left
      omega
    simp [Char.ofNat, hv, Char.ofNatAux]
    rfl
  · rfl

theorem isJsWs_iff (c : Char) : isJsWs c = true ↔
    (c.toNat = 32 ∨ c.toNat = 9 ∨ c.toNat = 10 ∨ c.toNat = 13 ∨ c.toNat = 11 ∨
     c.toNat = 12 ∨ c.toNat = 0xA0 ∨ c.toNat = 0x1680 ∨
     (0x2000 ≤ c.toNat ∧ c.toNat ≤ 0x200A) ∨
     c.toNat = 0x2028 ∨ c.toNat = 0x2029 ∨ c.toNat = 0x202F ∨ c.toNat = 0x205F ∨
     c.toNat = 0x3000 ∨ c.toNat = 0xFEFF) := by
  simp [isJsWs, Bool.or_eq_true, beq_iff_eq, Bool.and_eq_true, decide_eq_true_eq, or_assoc]

theorem lower_ws (c : Char) : isJsWs (jsToLower c) = isJsWs c := by
  have h := lower_toNat c
  rw [Bool.eq_iff_iff, isJsWs_iff, isJsWs_iff]
  by_cases hb : 65 ≤ c.toNat ∧ c.toNat ≤ 90
  · rw [if_pos hb] at h
    rw [h]
    omega
  · rw [if_neg hb] at h
    rw [h]

theorem lower_idem (c : Char) : jsToLower (jsToLower c) = jsToLower c := by
  have h := lower_toNat c
  have hx : ¬ (65 ≤ (jsToLower c).toNat ∧ (jsToLower c).toNat ≤ 90) := by
    by_cases hb : 65 ≤ c.toNat ∧ c.toNat ≤ 90
    · rw [if_pos hb] at h
      omega
    · rw [if_neg hb] at h
      omega
  generalize jsToLower c = d at hx ⊢
  unfold jsToLower
  exact if_neg hx

theorem isJsDash_iff (c : Char) :
    isJsDash c = true ↔ (0x2010 ≤ c.toNat ∧ c.toNat ≤ 0x2015) := by
  simp [isJsDash, Bool.and_eq_true, decide_eq_true_eq]

theorem lower_dash (c : Char) : isJsDash (jsToLower c) = isJsDash c := by
  have h := lower_toNat c
  rw [Bool.eq_iff_iff, isJsDash_iff, isJsDash_iff]
  by_cases hb : 65 ≤ c.toNat ∧ c.toNat ≤ 90
  · rw [if_pos hb] at h
    rw [h]
    omega
  · rw [if_neg hb] at h
    rw [h]

theorem dash_ws (c : Char) : isJsWs (dashChar c) = isJsWs c := by
  unfold dashChar
  split
  · next h =>
    rw [Bool.eq_iff_iff, isJsWs_iff, isJsWs_iff]
    have hd := (isJsDash_iff c).mp h
    have hm : ('-').toNat = 45 := by decide
    rw [hm]
    omega
  · rfl

theorem dash_not_dash (c : Char) : isJsDash (dashChar c) = false := by
  unfold dashChar
  split
  · decide
  · next h =>
    exact Bool.eq_false_iff.mpr h

theorem startsWithL_iff (s l : List Char) : startsWithL s l = true ↔ ∃ t, l = s ++ t := by
  induction s generalizing l with
  | nil =>
    simp [startsWithL]
  | cons a s ih =>
    cases l with
    | nil =>
      simp [startsWithL]
    | cons b l =>
      simp only [startsWithL, Bool.and_eq_true, beq_iff_eq, ih]
      constructor
      · rintro ⟨rfl, t, rfl⟩
        exact ⟨t, rfl⟩
      · rintro ⟨t, ht⟩
        cases ht
        exact ⟨rfl, t, rfl⟩

theorem hasSubL_iff (s l : List Char) : hasSubL s l = true ↔ s <:+: l := by
  induction l with
  | nil =>
    simp only [hasSubL, startsWithL_iff]
    constructor
    · rintro ⟨t, ht⟩
      rcases List.append_eq_nil.mp ht.symm with ⟨rfl, rfl⟩
      exact ⟨[], [], rfl⟩
    · rintro ⟨p, t, h⟩
      rcases List.append_eq_nil.mp h with ⟨h1, rfl⟩
      rcases List.append_eq_nil.mp h1 with ⟨rfl, rfl⟩
      exact ⟨[], rfl⟩
  | cons c rest ih =>
    simp only [hasSubL, Bool.or_eq_true, startsWithL_iff, ih]
    constructor
    · rintro (⟨t, ht⟩ | h)
      · exact ⟨[], t, by simp [ht]⟩
      · rcases h with ⟨p, t, hp⟩
        exact ⟨c :: p, t, by simp [hp]⟩
    · rintro ⟨p, t, hp⟩
      cases p with
      | nil =>
        exact Or.inl ⟨t, by simpa using hp.symm⟩
      | cons x p =>
        cases hp
        exact Or.inr ⟨p, t, rfl⟩

theorem noAdjWs_tail {a : Char} {l : List Char} (h : noAdjWs (a :: l)) : noAdjWs l := by
  cases l with
  | nil => trivial
  | cons b t => exact h.2

theorem noAdjWs_append_left {m q : List Char} (h : noAdjWs (m ++ q)) : noAdjWs m := by
  induction m with
  | nil => trivial
  | cons a m ih =>
    cases m with
    | nil => trivial
    | cons b m' =>
      have h' : noAdjWs (a :: b :: (m' ++ q)) := h
      exact ⟨h'.1, ih h'.2⟩

theorem noAdjWs_mid {p m q : List Char} (h : noAdjWs (p ++ m ++ q)) : noAdjWs m := by
  induction p with
  | nil => exact noAdjWs_append_left h
  | cons a p ih => exact ih (noAdjWs_tail h)

theorem noAdjWs_map {f : Char → Char} (hf : ∀ c, isJsWs (f c) = isJsWs c)
    {l : List Char} (h : noAdjWs l) : noAdjWs (l.map f) := by
  induction l with
  | nil => trivial
  | cons a t ih =>
    cases t with
    | nil => trivial
    | cons b t' =>
      refine ⟨?_, ih h.2⟩
      rw [hf a, hf b]
      exact h.1

/-- Every whitespace character emitted by the whitespace collapse is the
single ASCII space. -/
theorem collapse_ws_sp (l : List Char) : ∀ (flag : Bool) (c : Char),
    c ∈ collapseWsAux flag l → isJsWs c = true → c = ' ' := by
  induction l with
  | nil =>
    intro flag c hc _
    simp [collapseWsAux] at hc
  | cons a rest ih =>
    intro flag c hc hw
    unfold collapseWsAux at hc
    by_cases ha : isJsWs a = true
    · rw [if_pos ha] at hc
      cases flag with
      | true => exact ih true c hc hw
      | false =>
        rcases List.mem_cons.mp hc with h1 | h2
        · exact h1
        · exact ih true c h2 hw
    · rw [if_neg (by simpa using ha)] at hc
      rcases List.mem_cons.mp hc with h1 | h2
      · subst h1
        exact absurd hw ha
      · exact ih false c h2 hw

/-- After the collapse has just emitted part of a whitespace run
(`flag = true`), the next emitted character is not whitespace. -/
theorem collapse_true_head (l : List Char) : ∀ (c : Char) (t : List Char),
    collapseWsAux true l = c :: t → isJsWs c = false := by
  induction l with
  | nil =>
    intro c t h
    simp [collapseWsAux] at h
  | cons a rest ih =>
    intro c t h
    unfold collapseWsAux at h
    by_cases ha : isJsWs a = true
    · rw [if_pos ha] at h
      exact ih c t h
    · rw [if_neg (by simpa using ha)] at h
      cases h
      exact Bool.eq_false_iff.mpr ha

theorem collapse_noAdj (l : List Char) : ∀ (flag : Bool), noAdjWs (collapseWsAux flag l) := by
  induction l with
  | nil =>
    intro flag
    simp only [collapseWsAux]
    trivial
  | cons a rest ih =>
    intro flag
    unfold collapseWsAux
    by_cases ha : isJsWs a = true
    · rw [if_pos ha]
      cases flag with
      | true => exact ih true
      | false =>
        show noAdjWs (' ' :: collapseWsAux true rest)
        rcases he : collapseWsAux true rest with _ | ⟨d, t⟩
        · trivial
        · refine ⟨?_, he ▸ ih true⟩
          rintro ⟨_, hd⟩
          rw [collapse_true_head rest d t he] at hd
          cases hd
    · rw [if_neg (by simpa using ha)]
      rcases he : collapseWsAux false rest with _ | ⟨d, t⟩
      · trivial
      · refine ⟨?_, he ▸ ih false⟩
        rintro ⟨haw, _⟩
        rw [haw] at ha
        exact ha rfl

/-- The collapse is the identity on lists whose whitespace is already in
normal form (only single ASCII spaces, never two adjacent). -/
theorem collapse_id (l : List Char)
    (hsp : ∀ c ∈ l, isJsWs c = true → c = ' ') (hadj : noAdjWs l) :
    collapseWsAux false l = l := by
  induction l with
  | nil => rfl
  | cons a rest ih =>
    unfold collapseWsAux
    by_cases ha : isJsWs a = true
    · have hasp : a = ' ' := hsp a (List.mem_cons_self a rest) ha
      rw [if_pos ha]
      show ' ' :: collapseWsAux true rest = a :: rest
      rw [hasp]
      congr 1
      cases rest with
      | nil => rfl
      | cons b t =>
        have hb : isJsWs b = false := by
          rcases hw : isJsWs b with _ | _
          · rfl
          · exact absurd ⟨ha, hw⟩ hadj.1
        have htail : collapseWsAux false (b :: t) = b :: t :=
          ih (fun c hc hw => hsp c (List.mem_cons_of_mem a hc) hw) hadj.2
        unfold collapseWsAux at htail ⊢
        rw [if_neg (by simp [hb])] at htail ⊢
        exact htail
    · rw [if_neg (by simpa using ha)]
      congr 1
      exact ih (fun c hc hw => hsp c (List.mem_cons_of_mem a hc) hw) (noAdjWs_tail hadj)

theorem dwSfx {α : Type} (p : α → Bool) (l : List α) : ∃ t, l = t ++ l.dropWhile p := by
  induction l with
  | nil => exact ⟨[], rfl⟩
  | cons a rest ih =>
    by_cases ha : p a = true
    · rcases ih with ⟨u, hu⟩
      refine ⟨a :: u, ?_⟩
      rw [List.dropWhile_cons, if_pos ha]
      simpa using hu
    · refine ⟨[], ?_⟩
      rw [List.dropWhile_cons, if_neg (by simpa using ha)]
      rfl

theorem dwHead {α : Type} (p : α → Bool) (l : List α) {c : α}
    (h : (l.dropWhile p).head? = some c) : p c = false := by
  induction l with
  | nil => simp at h
  | cons a rest ih =>
    rw [List.dropWhile_cons] at h
    by_cases ha : p a = true
    · rw [if_pos ha] at h
      exact ih h
    · rw [if_neg (by simpa using ha)] at h
      cases h
      exact Bool.eq_false_iff.mpr ha

theorem dwId {α : Type} (p : α → Bool) (l : List α)
    (h : ∀ c, l.head? = some c → p c = false) : l.dropWhile p = l := by
  cases l with
  | nil => rfl
  | cons a rest =>
    rw [List.dropWhile_cons, if_neg]
    simp [h a rfl]

/-- The leading segment of the original list dropped by `trimWs` can be
restored: `trimWs l` is a contiguous piece of `l`. -/
theorem trim_pre (l : List Char) : ∃ q, l.dropWhile isJsWs = trimWs l ++ q := by
  rcases dwSfx isJsWs (l.dropWhile isJsWs).reverse with ⟨v, hv⟩
  refine ⟨v.reverse, ?_⟩
  have := congrArg List.reverse hv
  rw [List.reverse_reverse, List.reverse_append] at this
  exact this

theorem trim_decomp (l : List Char) : ∃ p q, l = p ++ trimWs l ++ q := by
  rcases dwSfx isJsWs l with ⟨u, hu⟩
  rcases trim_pre l with ⟨q, hq⟩
  refine ⟨u, q, ?_⟩
  rw [List.append_assoc]
  conv_lhs => rw [hu, hq]

theorem mem_of_trim {c : Char} {l : List Char} (h : c ∈ trimWs l) : c ∈ l := by
  rcases trim_decomp l with ⟨p, q, hp⟩
  rw [hp]
  simp [h]

theorem trim_head {l : List Char} {c : Char}
    (h : (trimWs l).head? = some c) : isJsWs c = false := by
  rcases trim_pre l with ⟨q, hq⟩
  apply dwHead isJsWs l
  rw [hq]
  cases he : trimWs l with
  | nil => rw [he] at h; cases h
  | cons x t =>
    rw [he] at h
    cases h
    rfl

theorem trim_last {l : List Char} {c : Char}
    (h : (trimWs l).getLast? = some c) : isJsWs c = false := by
  unfold trimWs at h
  rw [List.getLast?_reverse] at h
  exact dwHead isJsWs (l.dropWhile isJsWs).reverse h

theorem trim_id (l : List Char)
    (h1 : ∀ c, l.head? = some c → isJsWs c = false)
    (h2 : ∀ c, l.getLast? = some c → isJsWs c = false) : trimWs l = l := by
  unfold trimWs
  rw [dwId isJsWs l h1]
  rw [dwId isJsWs l.reverse (fun c hc => h2 c (by rwa [List.head?_reverse] at hc))]
  exact List.reverse_reverse l

theorem mapIdOn {α : Type} (f : α → α) (l : List α) (h : ∀ c ∈ l, f c = c) :
    l.map f = l := by
  induction l with
  | nil => rfl
  | cons a rest ih =>
    rw [List.map_cons, h a (List.mem_cons_self a rest),
      ih (fun c hc => h c (List.mem_cons_of_mem a hc))]

/-- Characters of the normalized form originate from the collapse,
through the dash replacement and the lower-casing. -/
theorem norm_mem_origin {c : Char} {l : List Char}
    (h : c ∈ (trimWs ((collapseWs l).map dashChar)).map jsToLower) :
    ∃ e, e ∈ collapseWs l ∧ c = jsToLower (dashChar e) := by
  rcases List.mem_map.mp h with ⟨d, hd, rfl⟩
  rcases List.mem_map.mp (mem_of_trim hd) with ⟨e, he, rfl⟩
  exact ⟨e, he, rfl⟩

theorem norm_ws_sp {c : Char} {l : List Char}
    (h : c ∈ (trimWs ((collapseWs l).map dashChar)).map jsToLower)
    (hw : isJsWs c = true) : c = ' ' := by
  rcases norm_mem_origin h with ⟨e, he, rfl⟩
  have hwe : isJsWs e = true := by
    rw [lower_ws, dash_ws] at hw
    exact hw
  rw [collapse_ws_sp l false e he hwe]
  decide

theorem norm_noAdj (l : List Char) :
    noAdjWs ((trimWs ((collapseWs l).map dashChar)).map jsToLower) := by
  apply noAdjWs_map lower_ws
  rcases trim_decomp ((collapseWs l).map dashChar) with ⟨p, q, hp⟩
  exact noAdjWs_mid (hp ▸ noAdjWs_map dash_ws (collapse_noAdj l false))

theorem norm_no_dash {c : Char} {l : List Char}
    (h : c ∈ (trimWs ((collapseWs l).map dashChar)).map jsToLower) :
    isJsDash c = false := by
  rcases norm_mem_origin h with ⟨e, _, rfl⟩
  rw [lower_dash]
  exact dash_not_dash e

theorem norm_lower_fixed {c : Char} {l : List Char}
    (h : c ∈ (trimWs ((collapseWs l).map dashChar)).map jsToLower) :
    jsToLower c = c := by
  rcases List.mem_map.mp h with ⟨d, _, rfl⟩
  exact lower_idem d

theorem norm_head_ws {c : Char} {l : List Char}
    (h : ((trimWs ((collapseWs l).map dashChar)).map jsToLower).head? = some c) :
    isJsWs c = false := by
  rw [List.head?_map] at h
  cases he : (trimWs ((collapseWs l).map dashChar)).head? with
  | none => rw [he] at h; cases h
  | some d =>
    rw [he] at h
    cases h
    rw [lower_ws]
    exact trim_head he

theorem norm_last_ws {c : Char} {l : List Char}
    (h : ((trimWs ((collapseWs l).map dashChar)).map jsToLower).getLast? = some c) :
    isJsWs c = false := by
  rw [List.getLast?_map] at h
  cases he : (trimWs ((collapseWs l).map dashChar)).getLast? with
  | none => rw [he] at h; cases h
  | some d =>
    rw [he] at h
    cases h
    rw [lower_ws]
    exact trim_last he

/-- The normalization pipeline is the identity on its own output. -/
theorem normList_idem (l : List Char) :
    (trimWs ((collapseWs ((trimWs ((collapseWs l).map dashChar)).map jsToLower)).map
      dashChar)).map jsToLower
    = (trimWs ((collapseWs l).map dashChar)).map jsToLower := by
  have hc : collapseWs ((trimWs ((collapseWs l).map dashChar)).map jsToLower)
      = (trimWs ((collapseWs l).map dashChar)).map jsToLower :=
    collapse_id _ (fun c hc hw => norm_ws_sp hc hw) (norm_noAdj l)
  rw [hc]
  have hd : ((trimWs ((collapseWs l).map dashChar)).map jsToLower).map dashChar
      = (trimWs ((collapseWs l).map dashChar)).map jsToLower := by
    apply mapIdOn
    intro c hcm
    unfold dashChar
    rw [if_neg (by simp [norm_no_dash hcm])]
  rw [hd]
  have ht : trimWs ((trimWs ((collapseWs l).map dashChar)).map jsToLower)
      = (trimWs ((collapseWs l).map dashChar)).map jsToLower := by
    apply trim_id
    · intro c hc
      exact norm_head_ws hc
    · intro c hc
      exact norm_last_ws hc
  rw [ht]
  apply mapIdOn
  intro c hcm
  exact norm_lower_fixed hcm

theorem collapseWsAux_cons (flag : Bool) (c : Char) (l : List Char) :
    collapseWsAux flag (c :: l) =
      if isJsWs c then cond flag (collapseWsAux true l) (' ' :: collapseWsAux true l)
      else c :: collapseWsAux false l := rfl

theorem collapse_append (a : List Char) : ∀ (b : List Char) (flag : Bool),
    collapseWsAux flag (a ++ b)
    = collapseWsAux flag a ++ collapseWsAux (flagAfter flag a) b := by
  induction a with
  | nil => intro b flag; rfl
  | cons x rest ih =>
    intro b flag
    have h3 : flagAfter flag (x :: rest) = flagAfter (isJsWs x) rest := rfl
    show collapseWsAux flag (x :: (rest ++ b)) = _
    rw [collapseWsAux_cons, collapseWsAux_cons, h3]
    by_cases hx : isJsWs x = true
    · rw [if_pos hx, if_pos hx, hx, ih b true]
      cases flag
      · rfl
      · rfl
    · have hx' : isJsWs x = false := Bool.eq_false_iff.mpr hx
      rw [if_neg (by simp [hx']), if_neg (by simp [hx']), hx', ih b false]
      rfl

theorem collapse_true_or (l : List Char) :
    collapseWsAux true l = collapseWsAux false l ∨
    collapseWsAux false l = ' ' :: collapseWsAux true l := by
  cases l with
  | nil => exact Or.inl rfl
  | cons c rest =>
    rw [collapseWsAux_cons, collapseWsAux_cons]
    by_cases hc : isJsWs c = true
    · rw [if_pos hc, if_pos hc]
      exact Or.inr rfl
    · rw [if_neg (by simpa using hc), if_neg (by simpa using hc)]
      exact Or.inl rfl

theorem collapse_ne_nil {a : List Char} (h : a ≠ []) : collapseWsAux false a ≠ [] := by
  cases a with
  | nil => exact absurd rfl h
  | cons c rest =>
    rw [collapseWsAux_cons]
    by_cases hc : isJsWs c = true
    · rw [if_pos hc]
      exact List.cons_ne_nil _ _
    · rw [if_neg (by simpa using hc)]
      exact List.cons_ne_nil _ _

theorem collapse_last_sp (a : List Char) : ∀ (flag : Bool), flagAfter flag a = true →
    (∃ w, collapseWsAux flag a = w ++ [' ']) ∨ collapseWsAux flag a = [] := by
  induction a with
  | nil =>
    intro flag h
    exact Or.inr rfl
  | cons c rest ih =>
    intro flag h
    have hfa : flagAfter (isJsWs c) rest = true := h
    rw [collapseWsAux_cons]
    by_cases hc : isJsWs c = true
    · rw [if_pos hc]
      rw [hc] at hfa
      cases flag with
      | true => exact ih true hfa
      | false =>
        show (∃ w, ' ' :: collapseWsAux true rest = w ++ [' ']) ∨ _
        rcases ih true hfa with ⟨w, hw⟩ | hnil
        · exact Or.inl ⟨' ' :: w, by rw [hw]; rfl⟩
        · exact Or.inl ⟨[], by rw [hnil, List.nil_append]⟩
    · have hc' : isJsWs c = false := Bool.eq_false_iff.mpr hc
      rw [if_neg (by simp [hc'])]
      rw [hc'] at hfa
      rcases ih false hfa with ⟨w, hw⟩ | hnil
      · exact Or.inl ⟨c :: w, by rw [hw]; rfl⟩
      · -- the tail collapses to [] only when it is empty, contradicting the flag
        cases rest with
        | nil => cases hfa
        | cons d t => exact absurd hnil (collapse_ne_nil (List.cons_ne_nil d t))

/-- A contiguous occurrence survives whitespace collapsing: the collapse
of the occurring piece occurs contiguously in the collapse of the whole. -/
theorem collapse_mid (u t v : List Char) :
    collapseWs t <:+: collapseWsAux false (u ++ t ++ v) := by
  unfold collapseWs
  rw [List.append_assoc, collapse_append u (t ++ v) false,
    collapse_append t v (flagAfter false u)]
  rcases hf : flagAfter false u with _ | _
  · exact ⟨collapseWsAux false u, collapseWsAux (flagAfter false t) v, by rw [List.append_assoc]⟩
  · have hu : u ≠ [] := by
      intro he
      rw [he] at hf
      cases hf
    rcases collapse_last_sp u false hf with ⟨w, hw⟩ | hnil
    · rcases collapse_true_or t with heq | hsp
      · rw [heq]
        exact ⟨collapseWsAux false u, collapseWsAux (flagAfter true t) v, by rw [List.append_assoc]⟩
      · refine ⟨w, collapseWsAux (flagAfter true t) v, ?_⟩
        rw [hw, hsp]
        show w ++ (' ' :: collapseWsAux true t) ++ _ = _
        simp [List.append_assoc]
    · exact absurd hnil (collapse_ne_nil hu)

/-- Dropping leading whitespace never eats into an occurrence that starts
with a non-whitespace character. -/
theorem dwKeep (pre : List Char) : ∀ (c : Char) (t q : List Char), isJsWs c = false →
    ∃ pre', (pre ++ (c :: t) ++ q).dropWhile isJsWs = pre' ++ (c :: t) ++ q := by
  induction pre with
  | nil =>
    intro c t q hc
    refine ⟨[], ?_⟩
    show List.dropWhile isJsWs (c :: (t ++ q)) = _
    rw [List.dropWhile_cons, if_neg (by simp [hc])]
    rfl
  | cons a pre ih =>
    intro c t q hc
    by_cases ha : isJsWs a = true
    · rcases ih c t q hc with ⟨p', hp'⟩
      refine ⟨p', ?_⟩
      show List.dropWhile isJsWs (a :: (pre ++ (c :: t) ++ q)) = _
      rw [List.dropWhile_cons, if_pos ha]
      exact hp'
    · refine ⟨a :: pre, ?_⟩
      show List.dropWhile isJsWs (a :: (pre ++ (c :: t) ++ q)) = _
      rw [List.dropWhile_cons, if_neg (by simpa using ha)]
      rfl

/-- An occurrence whose two edges are not whitespace survives trimming. -/
theorem trim_keep {m Y : List Char} (h : m <:+: Y)
    (h1 : ∀ c, m.head? = some c → isJsWs c = false)
    (h2 : ∀ c, m.getLast? = some c → isJsWs c = false) :
    m <:+: trimWs Y := by
  cases m with
  | nil => exact ⟨[], trimWs Y, rfl⟩
  | cons c t =>
    rcases h with ⟨p, q, hp⟩
    have hc : isJsWs c = false := h1 c rfl
    rcases dwKeep p c t q hc with ⟨p', hp'⟩
    rw [← hp]
    unfold trimWs
    rw [hp']
    have hrev : (p' ++ (c :: t) ++ q).reverse
        = q.reverse ++ (c :: t).reverse ++ p'.reverse := by
      simp [List.reverse_append, List.append_assoc]
    rw [hrev]
    rcases hlast : (c :: t).getLast? with _ | d
    · rw [List.getLast?_eq_none_iff] at hlast
      cases hlast
    · have hd : isJsWs d = false := h2 d hlast
      have hrevhead : ∃ t', (c :: t).reverse = d :: t' := by
        cases hr : (c :: t).reverse with
        | nil =>
          have := congrArg List.length hr
          simp at this
        | cons d' t' =>
          have hh : (c :: t).reverse.head? = some d' := by rw [hr]; rfl
          rw [List.head?_reverse, hlast] at hh
          cases hh
          exact ⟨t', rfl⟩
      rcases hrevhead with ⟨t', hdt⟩
      rw [hdt]
      rcases dwKeep q.reverse d t' p'.reverse hd with ⟨q', hq'⟩
      rw [hq']
      refine ⟨p', q'.reverse, ?_⟩
      have hback : (q' ++ (d :: t') ++ p'.reverse).reverse
          = p' ++ (d :: t').reverse ++ q'.reverse := by
        simp [List.reverse_append, List.append_assoc]
      rw [hback, ← hdt, List.reverse_reverse]

/-- Raw contiguous occurrence is preserved by the full normalization
pipeline (collapse, dash replacement, trim, lower-case). -/
theorem normList_mono {t c : List Char} (h : t <:+: c) :
    (trimWs ((collapseWs t).map dashChar)).map jsToLower <:+:
    (trimWs ((collapseWs c).map dashChar)).map jsToLower := by
  rcases h with ⟨u, v, huv⟩
  rcases collapse_mid u t v with ⟨P, Q, hPQ⟩
  have hmap : (collapseWs c).map dashChar
      = P.map dashChar ++ (collapseWs t).map dashChar ++ Q.map dashChar := by
    rw [← huv]
    show (collapseWsAux false (u ++ t ++ v)).map dashChar = _
    rw [← hPQ]
    simp [List.map_append]
  rcases trim_decomp ((collapseWs t).map dashChar) with ⟨p2, q2, hp2⟩
  have hmid : trimWs ((collapseWs t).map dashChar) <:+: (collapseWs c).map dashChar := by
    refine ⟨P.map dashChar ++ p2, q2 ++ Q.map dashChar, ?_⟩
    rw [hmap]
    conv_rhs => rw [hp2]
    simp [List.append_assoc]
  have hkeep : trimWs ((collapseWs t).map dashChar) <:+: trimWs ((collapseWs c).map dashChar) :=
    trim_keep hmid (fun ch hc => trim_head hc) (fun ch hc => trim_last hc)
  rcases hkeep with ⟨A, B, hAB⟩
  refine ⟨A.map jsToLower, B.map jsToLower, ?_⟩
  rw [← hAB]
  simp [List.map_append]

/-- Raw substring occurrence implies normalized substring occurrence. -/
theorem norm_of_raw {t c : String} (h : t.data <:+: c.data) :
    (normalizeForComparison t).data <:+: (normalizeForComparison c).data :=
  normList_mono h

theorem matchToks_pre (ts : List RTok) : ∀ (cs m : List Char),
    matchToks ts cs = some m → ∃ rest, cs = m ++ rest := by
  induction ts with
  | nil =>
    intro cs m h
    cases h
    exact ⟨cs, rfl⟩
  | cons tk ts ih =>
    intro cs m h
    cases tk with
    | lit a =>
      cases cs with
      | nil => cases h
      | cons c cs' =>
        unfold matchToks at h
        by_cases hci : ciEq a c = true
        · rw [if_pos hci] at h
          cases hm : matchToks ts cs' with
          | none => rw [hm] at h; cases h
          | some m' =>
            rw [hm] at h
            cases h
            rcases ih cs' m' hm with ⟨rest, hrest⟩
            exact ⟨rest, by rw [hrest]; rfl⟩
        · rw [if_neg hci] at h
          cases h
    | wsRun =>
      unfold matchToks at h
      by_cases htw : cs.takeWhile isJsWs = []
      · rw [if_pos htw] at h
        cases h
      · rw [if_neg htw] at h
        cases hm : matchToks ts (cs.dropWhile isJsWs) with
        | none => rw [hm] at h; cases h
        | some m' =>
          rw [hm] at h
          cases h
          rcases ih _ m' hm with ⟨rest, hrest⟩
          refine ⟨rest, ?_⟩
          conv_lhs => rw [← List.takeWhile_append_dropWhile isJsWs cs]
          rw [hrest, List.append_assoc]

theorem searchToks_sub (ts : List RTok) : ∀ (cs m : List Char),
    searchToks ts cs = some m → m <:+: cs := by
  intro cs
  induction cs with
  | nil =>
    intro m h
    rcases matchToks_pre ts [] m h with ⟨rest, hrest⟩
    rcases List.append_eq_nil.mp hrest.symm with ⟨rfl, rfl⟩
    exact ⟨[], [], rfl⟩
  | cons c rest ih =>
    intro m h
    unfold searchToks at h
    cases hm : matchToks ts (c :: rest) with
    | some m' =>
      rw [hm] at h
      cases h
      rcases matchToks_pre ts (c :: rest) m hm with ⟨r, hr⟩
      exact ⟨[], r, by rw [hr]; rfl⟩
    | none =>
      rw [hm] at h
      rcases ih m h with ⟨p, q, hpq⟩
      exact ⟨c :: p, q, by rw [← hpq]; rfl⟩

/-- `jsRegexMatch` only ever returns a verbatim contiguous piece of the
content it searched. -/
theorem jsRegexMatch_sub {snip content m : String}
    (h : jsRegexMatch snip content = some m) : m.data <:+: content.data := by
  unfold jsRegexMatch at h
  cases hs : searchToks (toTokens snip.data) content.data with
  | none => rw [hs] at h; cases h
  | some l =>
    rw [hs] at h
    cases h
    exact searchToks_sub _ _ l hs

theorem routeA_locate_tier1 (f pv org : JsVal) (env : Env) (l : List ChunkRecord)
    (h1 : env.store (tier1Query f pv org) = { data := some l, error := false })
    (hne : l ≠ []) :
    RouteA.locateChunks f pv org env = LocOutcome.located l [tier1Query f pv org] := by
  simp only [RouteA.locateChunks, h1, Option.getD_some]
  rw [if_neg (by simp), if_neg (by simp [List.isEmpty_eq_false.mpr hne])]

theorem routeB_locate_tier1 (f p pv org : JsVal) (env : Env) (l : List ChunkRecord)
    (h1 : env.store (tier1Query f pv org) = { data := some l, error := false })
    (hne : l ≠ []) :
    RouteB.locateChunks f p pv org env = LocOutcome.located l [tier1Query f pv org] := by
  simp only [RouteB.locateChunks, h1, Option.getD_some]
  rw [if_neg (by simp)]
  rw [if_neg (by simp [List.isEmpty_eq_false.mpr hne])]
  rw [if_neg (by simp [List.isEmpty_eq_false.mpr hne])]

/-- Raw soundness of the route.ts acceptance gate: an accepted span is
verbatim inside the in-range target chunk. -/
theorem routeA_gate_sound (chunks : List ChunkRecord) (parsed : ParsedLlmJson) (h : Highlight)
    (he : RouteA.llmGate chunks parsed = some h) :
    ∃ n, ∃ hn : n < chunks.length,
      h.chunkId = (chunks.get ⟨n, hn⟩).id ∧
      h.text.data <:+: ((chunks.get ⟨n, hn⟩).content.getD "").data := by
  unfold RouteA.llmGate at he
  split at he
  · next i hci =>
    split at he
    · next exactText hct =>
      split at he
      · next hrange =>
        split at he
        · cases he
        · next targetChunk hget =>
          split at he
          · next hgate =>
            cases he
            rcases List.get?_eq_some.mp hget with ⟨hlen, hgeteq⟩
            refine ⟨i.toNat, hlen, ?_, ?_⟩
            · rw [hgeteq]
            · rw [hgeteq]
              exact (hasSubL_iff _ _).mp hgate.2
          · cases he
      · cases he
    · cases he
  · cases he

theorem routeA_content_sound (env : Env) (chunks : List ChunkRecord) (rawContent : String)
    (h : Highlight) (he : RouteA.llmFromContent env chunks rawContent = some h) :
    ∃ n, ∃ hn : n < chunks.length,
      h.chunkId = (chunks.get ⟨n, hn⟩).id ∧
      h.text.data <:+: ((chunks.get ⟨n, hn⟩).content.getD "").data := by
  unfold RouteA.llmFromContent at he
  split at he
  · cases he
  · split at he
    · cases he
    · split at he
      · cases he
      · exact routeA_gate_sound chunks _ h he

/-- Raw soundness of the route.ts LLM extraction stage. -/
theorem routeA_llm_sound (env : Env) (s : String) (chunks : List ChunkRecord) (h : Highlight)
    (he : RouteA.llmExtract env s chunks = some h) :
    ∃ n, ∃ hn : n < chunks.length,
      h.chunkId = (chunks.get ⟨n, hn⟩).id ∧
      h.text.data <:+: ((chunks.get ⟨n, hn⟩).content.getD "").data := by
  unfold RouteA.llmExtract at he
  split at he
  · cases he
  · split at he
    · cases he
    · exact routeA_content_sound env chunks _ h he

/-- Normalized soundness of the part_006 acceptance gate. -/
theorem routeB_gate_sound (chunks : List ChunkRecord) (parsed : ParsedLlmJson) (h : Highlight)
    (he : RouteB.llmGate chunks parsed = some h) :
    ∃ n, ∃ hn : n < chunks.length,
      h.chunkId = (chunks.get ⟨n, hn⟩).id ∧
      (normalizeForComparison h.text).data <:+:
        (normalizeForComparison ((chunks.get ⟨n, hn⟩).content.getD "")).data := by
  unfold RouteB.llmGate at he
  split at he
  · next i hci =>
    split at he
    · next exactText hct =>
      split at he
      · next hrange =>
        split at he
        · cases he
        · next targetChunk hget =>
          split at he
          · next hgate =>
            cases he
            rcases List.get?_eq_some.mp hget with ⟨hlen, hgeteq⟩
            refine ⟨i.toNat, hlen, ?_, ?_⟩
            · rw [hgeteq]
            · rw [hgeteq]
              exact (hasSubL_iff _ _).mp hgate.2
          · cases he
      · cases he
    · cases he
  · cases he

theorem routeB_content_sound (env : Env) (chunks : List ChunkRecord) (rawContent : String)
    (h : Highlight) (he : RouteB.llmFromContent env chunks rawContent = some h) :
    ∃ n, ∃ hn : n < chunks.length,
      h.chunkId = (chunks.get ⟨n, hn⟩).id ∧
      (normalizeForComparison h.text).data <:+:
        (normalizeForComparison ((chunks.get ⟨n, hn⟩).content.getD "")).data := by
  unfold RouteB.llmFromContent at he
  split at he
  · cases he
  · split at he
    · cases he
    · split at he
      · cases he
      · exact routeB_gate_sound chunks _ h he

/-- Normalized soundness of the part_006 LLM extraction stage. -/
theorem routeB_llm_sound (env : Env) (s : String) (chunks : List ChunkRecord) (h : Highlight)
    (he : RouteB.llmExtract env s chunks = some h) :
    ∃ n, ∃ hn : n < chunks.length,
      h.chunkId = (chunks.get ⟨n, hn⟩).id ∧
      (normalizeForComparison h.text).data <:+:
        (normalizeForComparison ((chunks.get ⟨n, hn⟩).content.getD "")).data := by
  unfold RouteB.llmExtract at he
  split at he
  · cases he
  · split at he
    · cases he
    · exact routeB_content_sound env chunks _ h he

theorem collapse_true_allws (l : List Char) (h : ∀ c ∈ l, isJsWs c = true) :
    collapseWsAux true l = [] := by
  induction l with
  | nil => rfl
  | cons c rest ih =>
    rw [collapseWsAux_cons, if_pos (h c (List.mem_cons_self c rest))]
    exact ih (fun d hd => h d (List.mem_cons_of_mem c hd))

theorem collapse_false_allws (l : List Char) (h : ∀ c ∈ l, isJsWs c = true) :
    collapseWsAux false l = [] ∨ collapseWsAux false l = [' '] := by
  cases l with
  | nil => exact Or.inl rfl
  | cons c rest =>
    rw [collapseWsAux_cons, if_pos (h c (List.mem_cons_self c rest))]
    right
    show ' ' :: collapseWsAux true rest = [' ']
    rw [collapse_true_allws rest (fun d hd => h d (List.mem_cons_of_mem c hd))]

theorem collapse_flag_irrel {c : Char} (hc : isJsWs c = false) (t : List Char) (flag : Bool) :
    collapseWsAux flag (c :: t) = collapseWsAux false (c :: t) := by
  rw [collapseWsAux_cons, collapseWsAux_cons, if_neg (by simp [hc]), if_neg (by simp [hc])]

theorem dwAppendNe {α : Type} (p : α → Bool) (a b : List α) (h : a.dropWhile p ≠ []) :
    (a ++ b).dropWhile p = a.dropWhile p ++ b := by
  induction a with
  | nil => exact absurd rfl h
  | cons x a' ih =>
    by_cases hx : p x = true
    · have hd : (x :: a').dropWhile p = a'.dropWhile p := by
        rw [List.dropWhile_cons, if_pos hx]
      rw [hd] at h ⊢
      show List.dropWhile p (x :: (a' ++ b)) = _
      rw [List.dropWhile_cons, if_pos hx]
      exact ih h
    · have hd : (x :: a').dropWhile p = x :: a' := by
        rw [List.dropWhile_cons, if_neg (by simpa using hx)]
      rw [hd]
      show List.dropWhile p (x :: (a' ++ b)) = _
      rw [List.dropWhile_cons, if_neg (by simpa using hx)]
      rfl

theorem trim_sp_left (X : List Char) : trimWs (' ' :: X) = trimWs X := by
  unfold trimWs
  rw [show List.dropWhile isJsWs (' ' :: X) = List.dropWhile isJsWs X by
    rw [List.dropWhile_cons, if_pos (by decide)]]

theorem trim_sp_right (X : List Char) : trimWs (X ++ [' ']) = trimWs X := by
  unfold trimWs
  cases hd : X.dropWhile isJsWs with
  | nil =>
    have hall : ∀ c ∈ X, isJsWs c = true := List.dropWhile_eq_nil_iff.mp hd
    have hall2 : (X ++ [' ']).dropWhile isJsWs = [] := by
      rw [List.dropWhile_eq_nil_iff]
      intro x hx
      rcases List.mem_append.mp hx with h1 | h2
      · exact hall x h1
      · rcases List.mem_singleton.mp h2 with rfl
        decide
    rw [hall2]
  | cons d ds =>
    have hne : X.dropWhile isJsWs ≠ [] := by rw [hd]; exact List.cons_ne_nil d ds
    rw [dwAppendNe isJsWs X [' '] hne, hd]
    have hrev : ((d :: ds) ++ [' ']).reverse = ' ' :: (d :: ds).reverse := by
      rw [List.reverse_append]
      rfl
    rw [hrev, List.dropWhile_cons, if_pos (by decide)]

/-- Trimming a piece that carries only optional single-space padding on
either side gives the trim of the piece. -/
theorem trim_sp_pad {A B : List Char} (X : List Char)
    (hA : A = [] ∨ A = [' ']) (hB : B = [] ∨ B = [' ']) :
    trimWs (A ++ X ++ B) = trimWs X := by
  have hright : trimWs (X ++ B) = trimWs X := by
    rcases hB with rfl | rfl
    · rw [List.append_nil]
    · exact trim_sp_right X
  rcases hA with rfl | rfl
  · rw [List.nil_append]
    exact hright
  · show trimWs (' ' :: (X ++ B)) = _
    rw [trim_sp_left]
    exact hright

/-- Trimming the snippet before normalizing does not change its
normalized form. -/
theorem norm_trim (s : String) :
    normalizeForComparison (jsTrim s) = normalizeForComparison s := by
  unfold normalizeForComparison jsTrim
  congr 1
  congr 1
  have hsplit1 : s.data = s.data.takeWhile isJsWs ++ s.data.dropWhile isJsWs :=
    (List.takeWhile_append_dropWhile isJsWs s.data).symm
  rcases trim_pre s.data with ⟨q, hq⟩
  have hq' : s.data.dropWhile isJsWs = trimWs s.data ++ q := hq
  have hqall : ∀ c ∈ q, isJsWs c = true := by
    intro c hc
    -- q is the reversal of a whitespace prefix of the reversed list
    have hm1 : s.data.dropWhile isJsWs
        = trimWs s.data ++ ((s.data.dropWhile isJsWs).reverse.takeWhile isJsWs).reverse := by
      have h0 : (s.data.dropWhile isJsWs).reverse
          = (s.data.dropWhile isJsWs).reverse.takeWhile isJsWs
            ++ (s.data.dropWhile isJsWs).reverse.dropWhile isJsWs :=
        (List.takeWhile_append_dropWhile isJsWs _).symm
      have h1 := congrArg List.reverse h0
      rw [List.reverse_reverse, List.reverse_append] at h1
      exact h1
    have himg : q = ((s.data.dropWhile isJsWs).reverse.takeWhile isJsWs).reverse :=
      List.append_cancel_left (hq'.symm.trans hm1)
    rw [himg] at hc
    exact List.mem_takeWhile_imp (List.mem_reverse.mp hc)
  have hpall : ∀ c ∈ s.data.takeWhile isJsWs, isJsWs c = true :=
    fun c hc => List.mem_takeWhile_imp hc
  -- collapse decomposition along s.data = pre ++ core ++ suf
  have hdecomp : s.data = s.data.takeWhile isJsWs ++ (trimWs s.data ++ q) := by
    conv_lhs => rw [hsplit1]
    rw [hq']
  have hcA := collapse_append (s.data.takeWhile isJsWs) (trimWs s.data ++ q) false
  have hcB := collapse_append (trimWs s.data) q (flagAfter false (s.data.takeWhile isJsWs))
  have hcore : ∀ flag, collapseWsAux flag (trimWs s.data) = collapseWsAux false (trimWs s.data) := by
    intro flag
    cases hcore : trimWs s.data with
    | nil => cases flag <;> rfl
    | cons c t =>
      have hc : isJsWs c = false := trim_head (by rw [hcore]; rfl)
      exact collapse_flag_irrel hc t flag
  have hsufall : ∀ flag, collapseWsAux flag q = [] ∨ collapseWsAux flag q = [' '] := by
    intro flag
    cases flag with
    | true => exact Or.inl (collapse_true_allws q hqall)
    | false => exact collapse_false_allws q hqall
  have hpresall : collapseWsAux false (s.data.takeWhile isJsWs) = []
      ∨ collapseWsAux false (s.data.takeWhile isJsWs) = [' '] :=
    collapse_false_allws _ hpall
  -- assemble
  have hwhole : collapseWs s.data
      = collapseWsAux false (s.data.takeWhile isJsWs)
        ++ collapseWsAux false (trimWs s.data)
        ++ collapseWsAux (flagAfter (flagAfter false (s.data.takeWhile isJsWs)) (trimWs s.data)) q := by
    show collapseWsAux false s.data = _
    conv_lhs => rw [hdecomp]
    rw [hcA, hcB, hcore, ← List.append_assoc]
  rw [hwhole]
  have hmap : (collapseWsAux false (s.data.takeWhile isJsWs)
        ++ collapseWsAux false (trimWs s.data)
        ++ collapseWsAux (flagAfter (flagAfter false (s.data.takeWhile isJsWs)) (trimWs s.data)) q).map dashChar
      = (collapseWsAux false (s.data.takeWhile isJsWs)).map dashChar
        ++ (collapseWsAux false (trimWs s.data)).map dashChar
        ++ (collapseWsAux (flagAfter (flagAfter false (s.data.takeWhile isJsWs)) (trimWs s.data)) q).map dashChar := by
    simp [List.map_append]
  rw [hmap]
  have hA : (collapseWsAux false (s.data.takeWhile isJsWs)).map dashChar = []
      ∨ (collapseWsAux false (s.data.takeWhile isJsWs)).map dashChar = [' '] := by
    rcases hpresall with h | h
    · rw [h]; exact Or.inl rfl
    · rw [h]; right; decide
  have hB : (collapseWsAux (flagAfter (flagAfter false (s.data.takeWhile isJsWs)) (trimWs s.data)) q).map dashChar = []
      ∨ (collapseWsAux (flagAfter (flagAfter false (s.data.takeWhile isJsWs)) (trimWs s.data)) q).map dashChar = [' '] := by
    rcases hsufall (flagAfter (flagAfter false (s.data.takeWhile isJsWs)) (trimWs s.data)) with h | h
    · rw [h]; exact Or.inl rfl
    · rw [h]; right; decide
  rw [trim_sp_pad _ hA hB]
  -- the trimmed-side collapse is over (jsTrim s).data = trimWs s.data
  rfl

/-- Raw soundness of the route.ts direct-match loop. -/
theorem routeA_loop_sound (cs : String) (chunks : List ChunkRecord) (h : Highlight)
    (he : RouteA.directLoop cs chunks = some h) :
    ∃ ch ∈ chunks, ch.id = h.chunkId ∧ h.text.data <:+: (ch.content.getD "").data := by
  induction chunks with
  | nil => cases he
  | cons chunk rest ih =>
    simp only [RouteA.directLoop] at he
    by_cases hct : chunk.content.getD "" = ""
    · rw [if_pos hct] at he
      rcases ih he with ⟨ch, hm, hrest⟩
      exact ⟨ch, List.mem_cons_of_mem chunk hm, hrest⟩
    · rw [if_neg hct] at he
      by_cases hinc : jsIncludes (chunk.content.getD "") cs = true
      · rw [if_pos hinc] at he
        cases he
        exact ⟨chunk, List.mem_cons_self chunk rest, rfl, (hasSubL_iff _ _).mp hinc⟩
      · rw [if_neg hinc] at he
        split at he
        · next m hm =>
          by_cases hme : m = ""
          · rw [if_pos hme] at he
            rcases ih he with ⟨ch, hmm, hrest⟩
            exact ⟨ch, List.mem_cons_of_mem chunk hmm, hrest⟩
          · rw [if_neg hme] at he
            cases he
            exact ⟨chunk, List.mem_cons_self chunk rest, rfl, jsRegexMatch_sub hm⟩
        · next hm =>
          rcases ih he with ⟨ch, hmm, hrest⟩
          exact ⟨ch, List.mem_cons_of_mem chunk hmm, hrest⟩

/-- Normalized soundness of the part_006 direct-match loop. -/
theorem routeB_loop_sound (cs ns : String) (hns : ns = normalizeForComparison cs)
    (chunks : List ChunkRecord) (h : Highlight)
    (he : RouteB.directLoop cs ns chunks = some h) :
    ∃ ch ∈ chunks, ch.id = h.chunkId ∧
      (normalizeForComparison h.text).data <:+:
        (normalizeForComparison (ch.content.getD "")).data := by
  induction chunks with
  | nil => cases he
  | cons chunk rest ih =>
    simp only [RouteB.directLoop] at he
    by_cases hct : chunk.content.getD "" = ""
    · rw [if_pos hct] at he
      rcases ih he with ⟨ch, hm, hrest⟩
      exact ⟨ch, List.mem_cons_of_mem chunk hm, hrest⟩
    · rw [if_neg hct] at he
      by_cases hinc :
          jsIncludes (normalizeForComparison (chunk.content.getD "")) ns = true
      · rw [if_pos hinc] at he
        cases he
        refine ⟨chunk, List.mem_cons_self chunk rest, rfl, ?_⟩
        cases hm : jsRegexMatch cs (chunk.content.getD "") with
        | some m =>
          show (normalizeForComparison m).data <:+: _
          exact norm_of_raw (jsRegexMatch_sub hm)
        | none =>
          show (normalizeForComparison cs).data <:+: _
          rw [hns] at hinc
          exact (hasSubL_iff _ _).mp hinc
      · rw [if_neg hinc] at he
        rcases ih he with ⟨ch, hm, hrest⟩
        exact ⟨ch, List.mem_cons_of_mem chunk hm, hrest⟩

theorem routeA_fdm_sound (chunks : List ChunkRecord) (snippet : String) (h : Highlight)
    (he : RouteA.findDirectMatch chunks snippet = some h) :
    ∃ ch ∈ chunks, ch.id = h.chunkId ∧ h.text.data <:+: (ch.content.getD "").data := by
  simp only [RouteA.findDirectMatch] at he
  by_cases hcs : jsTrim snippet = ""
  · rw [if_pos hcs] at he
    cases he
  · rw [if_neg hcs] at he
    exact routeA_loop_sound (jsTrim snippet) chunks h he

theorem routeB_fdm_sound (chunks : List ChunkRecord) (snippet : String) (h : Highlight)
    (he : RouteB.findDirectMatch chunks snippet = some h) :
    ∃ ch ∈ chunks, ch.id = h.chunkId ∧
      (normalizeForComparison h.text).data <:+:
        (normalizeForComparison (ch.content.getD "")).data := by
  simp only [RouteB.findDirectMatch] at he
  by_cases hcs : jsTrim snippet = ""
  · rw [if_pos hcs] at he
    cases he
  · rw [if_neg hcs] at he
    by_cases hns : normalizeForComparison (jsTrim snippet) = ""
    · rw [if_pos hns] at he
      cases he
    · rw [if_neg hns] at he
      exact routeB_loop_sound (jsTrim snippet) _ rfl chunks h he

/-- `jsIncludes` of an empty haystack with a non-empty needle fails. -/
theorem jsIncludes_empty {ns : String} (hnsne : ns ≠ "") : jsIncludes "" ns = false := by
  cases hd : ns.data with
  | nil =>
    exfalso
    apply hnsne
    cases ns with
    | mk l => cases hd; rfl
  | cons a l =>
    unfold jsIncludes
    rw [hd]
    rfl

/-- Completeness of the part_006 direct-match loop: when some chunk's
normalized content contains the (non-empty) normalized snippet, the loop
answers with the first such chunk. -/
theorem routeB_loop_first (cs ns : String) (hnsne : ns ≠ "") :
    ∀ (chunks : List ChunkRecord) (n : Nat) (hn : n < chunks.length),
      (∀ m (hm : m < chunks.length), m < n →
        jsIncludes (normalizeForComparison ((chunks.get ⟨m, hm⟩).content.getD "")) ns = false) →
      jsIncludes (normalizeForComparison ((chunks.get ⟨n, hn⟩).content.getD "")) ns = true →
      ∃ r, RouteB.directLoop cs ns chunks = some r ∧
        r.chunkId = (chunks.get ⟨n, hn⟩).id := by
  intro chunks
  induction chunks with
  | nil =>
    intro n hn
    exact absurd hn (Nat.not_lt_zero n)
  | cons chunk rest ih =>
    intro n hn hprev hcur
    cases n with
    | zero =>
      have hc : jsIncludes (normalizeForComparison (chunk.content.getD "")) ns = true := hcur
      have hcne : chunk.content.getD "" ≠ "" := by
        intro hcontra
        rw [hcontra] at hc
        have hnz : normalizeForComparison "" = "" := rfl
        rw [hnz, jsIncludes_empty hnsne] at hc
        cases hc
      refine ⟨{ text := (match jsRegexMatch cs (chunk.content.getD "") with
                 | some m => m
                 | none => cs), chunkId := chunk.id }, ?_, rfl⟩
      simp only [RouteB.directLoop]
      rw [if_neg hcne, if_pos hc]
    | succ n' =>
      have hskip : jsIncludes (normalizeForComparison (chunk.content.getD "")) ns = false :=
        hprev 0 (by simp) (Nat.succ_pos n')
      have hn' : n' < rest.length := by
        simp only [List.length_cons] at hn
        omega
      have hcur' : jsIncludes
          (normalizeForComparison ((rest.get ⟨n', hn'⟩).content.getD "")) ns = true := by
        rw [← List.get_cons_succ (a := chunk) (h := hn)]
        exact hcur
      have hprev' : ∀ m (hm : m < rest.length), m < n' →
          jsIncludes (normalizeForComparison ((rest.get ⟨m, hm⟩).content.getD "")) ns = false := by
        intro m hm hlt
        have hm1 : m + 1 < (chunk :: rest).length := by
          simp only [List.length_cons]
          omega
        have hres := hprev (m + 1) hm1 (Nat.succ_lt_succ hlt)
        rwa [List.get_cons_succ] at hres
      rcases ih n' hn' hprev' hcur' with ⟨r, hr, hid⟩
      refine ⟨r, ?_, ?_⟩
      · simp only [RouteB.directLoop]
        by_cases hct : chunk.content.getD "" = ""
        · rw [if_pos hct]
          exact hr
        · rw [if_neg hct, if_neg (by simp [hskip])]
          exact hr
      · rw [List.get_cons_succ]
        exact hid

/-- Full characterization of the route.ts 200-response once candidates
are located. -/
theorem routeA_post_located (body : Body) (env : Env) (chunks : List ChunkRecord)
    (log : List Query)
    (hf : truthy body.filename = true) (hp : body.page ≠ JsVal.vUndefined)
    (hu : envTruthy env.supabaseUrl = true) (hk : envTruthy env.supabaseAnonKey = true)
    (hloc : RouteA.locateChunks body.filename (pageValueOf body.page) body.orgUrl env
      = LocOutcome.located chunks log)
    (hne : chunks ≠ []) :
    RouteA.POST body env =
      (Response.ok
        (match (if body.answerSnippet ≠ "" then RouteA.findDirectMatch chunks body.answerSnippet
                else none) with
         | some directMatch => some directMatch
         | none =>
           if body.answerSnippet ≠ "" ∧ envTruthy env.openaiKey = true then
             RouteA.llmExtract env body.answerSnippet chunks
           else none)
        (serializeChunks chunks), log) := by
  simp only [RouteA.POST, hloc]
  rw [if_neg (by simp [hf, hp]), if_neg (by simp [hu, hk]),
    if_neg (by simp [List.isEmpty_eq_false.mpr hne])]
  cases hdm : (if body.answerSnippet ≠ "" then RouteA.findDirectMatch chunks body.answerSnippet
      else none) with
  | some d => rfl
  | none => rfl

/-- Full characterization of the part_006 200-response once candidates
are located. -/
theorem routeB_post_located (body : Body) (env : Env) (chunks : List ChunkRecord)
    (log : List Query)
    (hf : truthy body.filename = true) (hp : body.page ≠ JsVal.vUndefined)
    (hu : envTruthy env.supabaseUrl = true) (hk : envTruthy env.supabaseAnonKey = true)
    (hloc : RouteB.locateChunks body.filename body.page (pageValueOf body.page) body.orgUrl env
      = LocOutcome.located chunks log)
    (hne : chunks ≠ []) :
    RouteB.POST body env =
      (Response.ok
        (match (if envTruthy env.openaiKey = true then
                  RouteB.llmExtract env body.answerSnippet chunks
                else none) with
         | some h => some h
         | none => RouteB.findDirectMatch chunks body.answerSnippet)
        (serializeChunks chunks), log) := by
  simp only [RouteB.POST, hloc]
  rw [if_neg (by simp [hf, hp]), if_neg (by simp [hu, hk]),
    if_neg (by simp [List.isEmpty_eq_false.mpr hne])]

/-- A thrown model call (network/auth failure) yields `none` from the
route.ts extraction stage. -/
theorem routeA_llm_invoke_fail (env : Env) (s : String) (chunks : List ChunkRecord)
    (hinv : env.llmInvoke RouteA.systemMessage (RouteA.buildLlmPrompt s chunks)
      = Except.error ()) :
    RouteA.llmExtract env s chunks = none := by
  unfold RouteA.llmExtract
  rw [hinv]

/-- A thrown model call (network/auth failure) yields `none` from the
part_006 extraction stage. -/
theorem routeB_llm_invoke_fail (env : Env) (s : String) (chunks : List ChunkRecord)
    (hinv : env.llmInvoke RouteB.systemMessage (RouteB.buildLlmPrompt s chunks)
      = Except.error ()) :
    RouteB.llmExtract env s chunks = none := by
  unfold RouteB.llmExtract
  rw [hinv]

/-- Output that the content normalizer cannot shape into a string yields
`none` from the part_006 extraction stage. -/
theorem routeB_llm_parse_fail (env : Env) (s : String) (chunks : List ChunkRecord)
    (raw : LlmRaw)
    (hinv : env.llmInvoke RouteB.systemMessage (RouteB.buildLlmPrompt s chunks)
      = Except.ok raw)
    (hpr : parseLlmResponse raw = none) :
    RouteB.llmExtract env s chunks = none := by
  unfold RouteB.llmExtract
  rw [hinv]
  show (match parseLlmResponse raw with
    | none => none
    | some rawContent => RouteB.llmFromContent env chunks rawContent) = none
  rw [hpr]

/-- A `JSON.parse` that always throws (JSON-malformed output) yields
`none` from the brace-extraction step on. -/
theorem routeB_content_json_fail (env : Env) (chunks : List ChunkRecord) (rc : String)
    (hjson : ∀ str, env.jsonParse str = Except.error ()) :
    RouteB.llmFromContent env chunks rc = none := by
  unfold RouteB.llmFromContent
  by_cases hrc : rc = ""
  · rw [if_pos hrc]
  · rw [if_neg hrc]
    cases hbs : braceSlice (jsTrim rc) with
    | none => rfl
    | some mj =>
      show (match env.jsonParse mj with
        | Except.error _ => none
        | Except.ok parsed => RouteB.llmGate chunks parsed) = none
      rw [hjson mj]

/-- A `JSON.parse` that always throws yields `none` from the part_006
extraction stage. -/
theorem routeB_llm_json_fail (env : Env) (s : String) (chunks : List ChunkRecord)
    (hjson : ∀ str, env.jsonParse str = Except.error ()) :
    RouteB.llmExtract env s chunks = none := by
  unfold RouteB.llmExtract
  cases hinv : env.llmInvoke RouteB.systemMessage (RouteB.buildLlmPrompt s chunks) with
  | error e => rfl
  | ok raw =>
    show (match parseLlmResponse raw with
      | none => none
      | some rawContent => RouteB.llmFromContent env chunks rawContent) = none
    cases hp : parseLlmResponse raw with
    | none => rfl
    | some rc => exact routeB_content_json_fail env chunks rc hjson

/-- A span whose normalized form does not occur in the chosen chunk is
rejected by the part_006 gate. -/
theorem routeB_gate_reject (chunks : List ChunkRecord) (i : Int) (t : String)
    (tc : ChunkRecord) (hget : chunks.get? i.toNat = some tc)
    (hsub : jsIncludes (normalizeForComparison (tc.content.getD ""))
      (normalizeForComparison t) = false) :
    RouteB.llmGate chunks { chunkIndex := JsVal.vNum i, exactText := JsVal.vStr t } = none := by
  unfold RouteB.llmGate
  show (if 0 ≤ i ∧ i < (chunks.length : Int) then
      match chunks.get? i.toNat with
      | none => none
      | some targetChunk =>
        if t ≠ "" ∧ jsIncludes (normalizeForComparison (targetChunk.content.getD ""))
            (normalizeForComparison t) = true
        then some ({ text := t, chunkId := targetChunk.id } : Highlight)
        else none
    else none) = none
  by_cases hrange : 0 ≤ i ∧ i < (chunks.length : Int)
  · rw [if_pos hrange, hget]
    show (if t ≠ "" ∧ jsIncludes (normalizeForComparison (tc.content.getD ""))
        (normalizeForComparison t) = true
      then some ({ text := t, chunkId := tc.id } : Highlight) else none) = none
    rw [if_neg (by simp [hsub])]
  · rw [if_neg hrange]

/-- The gate rejection propagates to a `none` extraction-stage result. -/
theorem routeB_llm_gate_fail (env : Env) (s : String) (chunks : List ChunkRecord)
    (i : Int) (t : String) (tc : ChunkRecord)
    (hjson : ∀ str, env.jsonParse str
      = Except.ok { chunkIndex := JsVal.vNum i, exactText := JsVal.vStr t })
    (hget : chunks.get? i.toNat = some tc)
    (hsub : jsIncludes (normalizeForComparison (tc.content.getD ""))
      (normalizeForComparison t) = false) :
    RouteB.llmExtract env s chunks = none := by
  unfold RouteB.llmExtract
  cases hinv : env.llmInvoke RouteB.systemMessage (RouteB.buildLlmPrompt s chunks) with
  | error e => rfl
  | ok raw =>
    show (match parseLlmResponse raw with
      | none => none
      | some rawContent => RouteB.llmFromContent env chunks rawContent) = none
    cases hp : parseLlmResponse raw with
    | none => rfl
    | some rc =>
      show RouteB.llmFromContent env chunks rc = none
      unfold RouteB.llmFromContent
      by_cases hrc : rc = ""
      · rw [if_pos hrc]
      · rw [if_neg hrc]
        cases hbs : braceSlice (jsTrim rc) with
        | none => rfl
        | some mj =>
          show (match env.jsonParse mj with
            | Except.error _ => none
            | Except.ok parsed => RouteB.llmGate chunks parsed) = none
          rw [hjson mj]
          show RouteB.llmGate chunks
            { chunkIndex := JsVal.vNum i, exactText := JsVal.vStr t } = none
          exact routeB_gate_reject chunks i t tc hget hsub

theorem routeA_locate_log (f pv org : JsVal) (env : Env) :
    ∃ rest, locLog (RouteA.locateChunks f pv org env) = tier1Query f pv org :: rest := by
  simp only [RouteA.locateChunks]
  by_cases herr : (env.store (tier1Query f pv org)).error = true
  · rw [if_pos herr]
    exact ⟨[], rfl⟩
  · rw [if_neg herr]
    by_cases hemp : ((env.store (tier1Query f pv org)).data.getD []).isEmpty = true
    · rw [if_pos hemp]
      exact ⟨[tier3Query f org], rfl⟩
    · rw [if_neg hemp]
      exact ⟨[], rfl⟩

theorem routeB_locate_log (f p pv org : JsVal) (env : Env) :
    ∃ rest, locLog (RouteB.locateChunks f p pv org env) = tier1Query f pv org :: rest := by
  simp only [RouteB.locateChunks]
  by_cases herr : (env.store (tier1Query f pv org)).error = true
  · rw [if_pos herr]
    exact ⟨[], rfl⟩
  · rw [if_neg herr]
    by_cases hemp : ((env.store (tier1Query f pv org)).data.getD []).isEmpty = true
    · rw [if_pos hemp]
      cases hpf : pageNumberFallback p with
      | none =>
        simp only [hpf]
        exact ⟨[tier3Query f org], rfl⟩
      | some d =>
        simp only [hpf]
        cases hr2 : (env.store (tier2Query f d org)).data with
        | none =>
          simp only [hr2]
          exact ⟨[tier2Query f d org, tier3Query f org], rfl⟩
        | some l2 =>
          simp only [hr2]
          by_cases hl2 : l2.isEmpty = true
          · simp only [hl2]
            exact ⟨[tier2Query f d org, tier3Query f org], by simp [locLog]⟩
          · simp only [hl2]
            exact ⟨[tier2Query f d org], by simp [locLog, hl2]⟩
    · rw [if_neg hemp]
      rw [if_neg (by simpa using hemp)]
      exact ⟨[], rfl⟩

/-- When the exact-page tier is empty and a page string is extractable,
a non-empty alternate-page result short-circuits the capped tier. -/
theorem routeB_locate_tier2 (f p pv org : JsVal) (env : Env) (d : String)
    (l : List ChunkRecord)
    (h1 : env.store (tier1Query f pv org) = { data := some [], error := false })
    (hpf : pageNumberFallback p = some d)
    (h2 : (env.store (tier2Query f d org)).data = some l)
    (hne : l ≠ []) :
    RouteB.locateChunks f p pv org env
      = LocOutcome.located l [tier1Query f pv org, tier2Query f d org] := by
  simp [RouteB.locateChunks, h1, hpf, h2, List.isEmpty_eq_false.mpr hne]

/-- When the exact-page tier is empty and a page string is extractable,
the alternate-page query is always issued right after the exact-page
query and before anything else. -/
theorem routeB_locate_log2 (f p pv org : JsVal) (env : Env) (d : String)
    (h1 : env.store (tier1Query f pv org) = { data := some [], error := false })
    (hpf : pageNumberFallback p = some d) :
    ∃ rest, locLog (RouteB.locateChunks f p pv org env)
      = tier1Query f pv org :: tier2Query f d org :: rest := by
  simp only [RouteB.locateChunks, h1, Option.getD_some, hpf]
  have hnil : (([] : List ChunkRecord)).isEmpty = true := rfl
  rw [if_neg (show ¬ (({ data := some ([] : List ChunkRecord), error := false }
    : StoreResult).error = true) by simp)]
  rw [if_pos hnil]
  cases hr2 : (env.store (tier2Query f d org)).data with
  | none =>
    simp only [hr2]
    exact ⟨[tier3Query f org], rfl⟩
  | some l2 =>
    simp only [hr2]
    by_cases hl2 : l2.isEmpty = true
    · simp only [hl2]
      exact ⟨[tier3Query f org], by simp [locLog]⟩
    · simp only [hl2]
      exact ⟨[], by simp [locLog, hl2]⟩

/-- Past validation and configuration, the route.ts handler's issued
queries are exactly those of its location phase. -/
theorem routeA_post_log (body : Body) (env : Env)
    (hf : truthy body.filename = true) (hp : body.page ≠ JsVal.vUndefined)
    (hu : envTruthy env.supabaseUrl = true) (hk : envTruthy env.supabaseAnonKey = true) :
    (RouteA.POST body env).2
      = locLog (RouteA.locateChunks body.filename (pageValueOf body.page) body.orgUrl env) := by
  simp only [RouteA.POST]
  rw [if_neg (by simp [hf, hp]), if_neg (by simp [hu, hk])]
  cases houtcome : RouteA.locateChunks body.filename (pageValueOf body.page) body.orgUrl env with
  | storeError log => rfl
  | located chunks log =>
    by_cases hemp : chunks.isEmpty = true
    · simp only [hemp, if_true]
      rfl
    · simp only [hemp, if_false]
      cases hdm : (if body.answerSnippet ≠ "" then
          RouteA.findDirectMatch chunks body.answerSnippet else none) with
      | some d => rfl
      | none => rfl

/-- Past validation and configuration, the part_006 handler's issued
queries are exactly those of its location phase. -/
theorem routeB_post_log (body : Body) (env : Env)
    (hf : truthy body.filename = true) (hp : body.page ≠ JsVal.vUndefined)
    (hu : envTruthy env.supabaseUrl = true) (hk : envTruthy env.supabaseAnonKey = true) :
    (RouteB.POST body env).2
      = locLog (RouteB.locateChunks body.filename body.page (pageValueOf body.page)
          body.orgUrl env) := by
  simp only [RouteB.POST]
  rw [if_neg (by simp [hf, hp]), if_neg (by simp [hu, hk])]
  cases houtcome : RouteB.locateChunks body.filename body.page (pageValueOf body.page)
      body.orgUrl env with
  | storeError log => rfl
  | located chunks log =>
    by_cases hemp : chunks.isEmpty = true
    · simp only [hemp, if_true]
      rfl
    · simp only [hemp, if_false]
      cases hdm : (if envTruthy env.openaiKey = true then
          RouteB.llmExtract env body.answerSnippet chunks else none) with
      | some d => rfl
      | none => rfl

/-- Once validation passes, the route.ts handler never answers 400. -/
theorem routeA_post_not_bad (body : Body) (env : Env)
    (hval : ¬ (truthy body.filename = false ∨ body.page = JsVal.vUndefined)) :
    (RouteA.POST body env).1 ≠ Response.badRequest := by
  intro hcontra
  simp only [RouteA.POST] at hcontra
  rw [if_neg hval] at hcontra
  by_cases hcfg : (envTruthy env.supabaseUrl = false ∨ envTruthy env.supabaseAnonKey = false)
  · rw [if_pos hcfg] at hcontra
    simp at hcontra
  · rw [if_neg hcfg] at hcontra
    cases houtcome : RouteA.locateChunks body.filename (pageValueOf body.page)
        body.orgUrl env with
    | storeError log =>
      simp only [houtcome] at hcontra
      simp at hcontra
    | located chunks log =>
      simp only [houtcome] at hcontra
      by_cases hemp : chunks.isEmpty = true
      · simp only [hemp, if_true] at hcontra
        simp at hcontra
      · simp only [hemp, if_false] at hcontra
        cases hdm : (if body.answerSnippet ≠ "" then
            RouteA.findDirectMatch chunks body.answerSnippet else none) with
        | some d =>
          simp only [hdm] at hcontra
          simp at hcontra
        | none =>
          simp only [hdm] at hcontra
          simp at hcontra

/-- Once validation passes, the part_006 handler never answers 400. -/
theorem routeB_post_not_bad (body : Body) (env : Env)
    (hval : ¬ (truthy body.filename = false ∨ body.page = JsVal.vUndefined)) :
    (RouteB.POST body env).1 ≠ Response.badRequest := by
  intro hcontra
  simp only [RouteB.POST] at hcontra
  rw [if_neg hval] at hcontra
  by_cases hcfg : (envTruthy env.supabaseUrl = false ∨ envTruthy env.supabaseAnonKey = false)
  · rw [if_pos hcfg] at hcontra
    simp at hcontra
  · rw [if_neg hcfg] at hcontra
    cases houtcome : RouteB.locateChunks body.filename body.page (pageValueOf body.page)
        body.orgUrl env with
    | storeError log =>
      simp only [houtcome] at hcontra
      simp at hcontra
    | located chunks log =>
      simp only [houtcome] at hcontra
      by_cases hemp : chunks.isEmpty = true
      · simp only [hemp, if_true] at hcontra
        simp at hcontra
      · simp only [hemp, if_false] at hcontra
        cases hdm : (if envTruthy env.openaiKey = true then
            RouteB.llmExtract env body.answerSnippet chunks else none) with
        | some d =>
          simp only [hdm] at hcontra
          simp at hcontra
        | none =>
          simp only [hdm] at hcontra
          simp at hcontra

/-- Serialization keeps each candidate, preserving id and raw text. -/
theorem serialize_mem {ch : ChunkRecord} {chunks : List ChunkRecord} (hm : ch ∈ chunks) :
    ∃ sc ∈ serializeChunks chunks, sc.id = ch.id ∧ sc.text = ch.content.getD "" :=
  ⟨_, List.mem_map_of_mem _ hm, rfl, rfl⟩

/-- Claim C8: normalization idempotence — for every string `s`,
`normalizeForComparison (normalizeForComparison s) = normalizeForComparison s`. -/
theorem c8_normalize_idempotent (s : String) :
    normalizeForComparison (normalizeForComparison s) = normalizeForComparison s := by
  unfold normalizeForComparison
  exact congrArg String.mk (normList_idem s.data)

/-- Claim C1: LLM extraction validation gate — in both handler
revisions a span is surfaced by the LLM stage only when its `chunkIndex`
denotes an in-range candidate chunk and the normalized `exactText`
occurs inside that chunk's normalized content; any extractor output
failing the gate leaves the stage at `null`. -/
theorem c1_llm_validation_gate (env : Env) (s : String) (chunks : List ChunkRecord)
    (h : Highlight) :
    (RouteA.llmExtract env s chunks = some h →
      ∃ n, ∃ hn : n < chunks.length,
        h.chunkId = (chunks.get ⟨n, hn⟩).id ∧
        (normalizeForComparison h.text).data <:+:
          (normalizeForComparison ((chunks.get ⟨n, hn⟩).content.getD "")).data) ∧
    (RouteB.llmExtract env s chunks = some h →
      ∃ n, ∃ hn : n < chunks.length,
        h.chunkId = (chunks.get ⟨n, hn⟩).id ∧
        (normalizeForComparison h.text).data <:+:
          (normalizeForComparison ((chunks.get ⟨n, hn⟩).content.getD "")).data) := by
  constructor
  · intro he
    rcases routeA_llm_sound env s chunks h he with ⟨n, hn, hid, hinf⟩
    exact ⟨n, hn, hid, norm_of_raw hinf⟩
  · intro he
    exact routeB_llm_sound env s chunks h he

theorem c1_llm_validation_gate_witness :
    ∃ n, ∃ hn : n < ([demoChunk] : List ChunkRecord).length,
      ({ text := "ab", chunkId := 1 } : Highlight).chunkId
        = (([demoChunk] : List ChunkRecord).get ⟨n, hn⟩).id ∧
      (normalizeForComparison ({ text := "ab", chunkId := 1 } : Highlight).text).data <:+:
        (normalizeForComparison
          ((([demoChunk] : List ChunkRecord).get ⟨n, hn⟩).content.getD "")).data :=
  (c1_llm_validation_gate demoEnvLlm "x" [demoChunk] { text := "ab", chunkId := 1 }).2 rfl

/-- Claim C2: direct match soundness — in both handler revisions, if
`findDirectMatch` answers `\x7btext, chunkId\x7d` then `chunkId` belongs
to one of the supplied chunks and the normalized `text` occurs inside
that chunk's normalized content. -/
theorem c2_direct_match_soundness (chunks : List ChunkRecord) (snippet : String)
    (h : Highlight) :
    (RouteA.findDirectMatch chunks snippet = some h →
      ∃ ch ∈ chunks, ch.id = h.chunkId ∧
        (normalizeForComparison h.text).data <:+:
          (normalizeForComparison (ch.content.getD "")).data) ∧
    (RouteB.findDirectMatch chunks snippet = some h →
      ∃ ch ∈ chunks, ch.id = h.chunkId ∧
        (normalizeForComparison h.text).data <:+:
          (normalizeForComparison (ch.content.getD "")).data) := by
  constructor
  · intro he
    rcases routeA_fdm_sound chunks snippet h he with ⟨ch, hm, hid, hinf⟩
    exact ⟨ch, hm, hid, norm_of_raw hinf⟩
  · intro he
    exact routeB_fdm_sound chunks snippet h he

theorem c2_direct_match_soundness_witness :
    ∃ ch ∈ ([demoChunk] : List ChunkRecord),
      ch.id = ({ text := "ab", chunkId := 1 } : Highlight).chunkId ∧
      (normalizeForComparison ({ text := "ab", chunkId := 1 } : Highlight).text).data <:+:
        (normalizeForComparison (ch.content.getD "")).data :=
  (c2_direct_match_soundness [demoChunk] "ab" { text := "ab", chunkId := 1 }).1 rfl

/-- Claim C3: direct match completeness under normalization (the
normalized matcher of part_006) — for a snippet with a non-empty
normalized form, if the normalized snippet occurs in the normalized
content of some candidate, `findDirectMatch` answers non-null with the
first such chunk in the supplied order. -/
theorem c3_direct_match_completeness (chunks : List ChunkRecord) (snippet : String)
    (hne : normalizeForComparison snippet ≠ "")
    (n : Nat) (hn : n < chunks.length)
    (hfirst : ∀ m (hm : m < chunks.length), m < n →
      jsIncludes (normalizeForComparison ((chunks.get ⟨m, hm⟩).content.getD ""))
        (normalizeForComparison snippet) = false)
    (hhit : jsIncludes (normalizeForComparison ((chunks.get ⟨n, hn⟩).content.getD ""))
      (normalizeForComparison snippet) = true) :
    ∃ r, RouteB.findDirectMatch chunks snippet = some r ∧
      r.chunkId = (chunks.get ⟨n, hn⟩).id := by
  have htr : normalizeForComparison (jsTrim snippet) = normalizeForComparison snippet :=
    norm_trim snippet
  have hcs : jsTrim snippet ≠ "" := by
    intro hcontra
    apply hne
    rw [← htr, hcontra]
    rfl
  have hns : normalizeForComparison (jsTrim snippet) ≠ "" := by
    rw [htr]
    exact hne
  rcases routeB_loop_first (jsTrim snippet) (normalizeForComparison (jsTrim snippet)) hns
      chunks n hn
      (by
        intro m hm hlt
        rw [htr]
        exact hfirst m hm hlt)
      (by
        rw [htr]
        exact hhit) with ⟨r, hr, hid⟩
  refine ⟨r, ?_, hid⟩
  simp only [RouteB.findDirectMatch]
  rw [if_neg hcs, if_neg hns]
  exact hr

theorem c3_direct_match_completeness_witness :
    ∃ r, RouteB.findDirectMatch [demoChunk] "AB" = some r ∧
      r.chunkId = (([demoChunk] : List ChunkRecord).get ⟨0, by decide⟩).id :=
  c3_direct_match_completeness [demoChunk] "AB" (by decide) 0 (by decide)
    (fun m hm hlt => absurd hlt (Nat.not_lt_zero m)) (by decide)

/-- Claim C4: fallback completeness — in both handler revisions, once
the locator produces a non-empty candidate list, the 200 response
serializes exactly that list (same length, same order), on every
resolution path. -/
theorem c4_fallback_completeness (body : Body) (env : Env) (chunks : List ChunkRecord)
    (log : List Query)
    (hf : truthy body.filename = true) (hp : body.page ≠ JsVal.vUndefined)
    (hu : envTruthy env.supabaseUrl = true) (hk : envTruthy env.supabaseAnonKey = true)
    (hne : chunks ≠ []) :
    (RouteA.locateChunks body.filename (pageValueOf body.page) body.orgUrl env
        = LocOutcome.located chunks log →
      ∃ hl, RouteA.POST body env = (Response.ok hl (serializeChunks chunks), log) ∧
        (serializeChunks chunks).length = chunks.length) ∧
    (RouteB.locateChunks body.filename body.page (pageValueOf body.page) body.orgUrl env
        = LocOutcome.located chunks log →
      ∃ hl, RouteB.POST body env = (Response.ok hl (serializeChunks chunks), log) ∧
        (serializeChunks chunks).length = chunks.length) := by
  constructor
  · intro hloc
    exact ⟨_, routeA_post_located body env chunks log hf hp hu hk hloc hne,
      by simp [serializeChunks]⟩
  · intro hloc
    exact ⟨_, routeB_post_located body env chunks log hf hp hu hk hloc hne,
      by simp [serializeChunks]⟩

theorem c4_fallback_completeness_witness :
    ∃ hl, RouteA.POST demoBody demoEnv
      = (Response.ok hl (serializeChunks [demoChunk]),
         [tier1Query (JsVal.vStr "f.pdf") (JsVal.vStr "5") JsVal.vUndefined]) ∧
      (serializeChunks [demoChunk]).length = ([demoChunk] : List ChunkRecord).length :=
  (c4_fallback_completeness demoBody demoEnv [demoChunk]
    [tier1Query (JsVal.vStr "f.pdf") (JsVal.vStr "5") JsVal.vUndefined]
    rfl (by decide) rfl rfl (by decide)).1 rfl

/-- Claim C5: chunk locator monotonic fallback — in both handler
revisions, when the exact-page query answers at least one chunk, that
query is the only store query issued and its result is the candidate
set. -/
theorem c5_locator_short_circuit (f p pv org : JsVal) (env : Env) (l : List ChunkRecord)
    (h1 : env.store (tier1Query f pv org) = { data := some l, error := false })
    (hne : l ≠ []) :
    RouteA.locateChunks f pv org env = LocOutcome.located l [tier1Query f pv org] ∧
    RouteB.locateChunks f p pv org env = LocOutcome.located l [tier1Query f pv org] :=
  ⟨routeA_locate_tier1 f pv org env l h1 hne, routeB_locate_tier1 f p pv org env l h1 hne⟩

theorem c5_locator_short_circuit_witness :
    RouteA.locateChunks (JsVal.vStr "f.pdf") (JsVal.vStr "5") JsVal.vUndefined demoEnv
      = LocOutcome.located [demoChunk]
        [tier1Query (JsVal.vStr "f.pdf") (JsVal.vStr "5") JsVal.vUndefined] ∧
    RouteB.locateChunks (JsVal.vStr "f.pdf") (JsVal.vNum 5) (JsVal.vStr "5")
        JsVal.vUndefined demoEnv
      = LocOutcome.located [demoChunk]
        [tier1Query (JsVal.vStr "f.pdf") (JsVal.vStr "5") JsVal.vUndefined] :=
  c5_locator_short_circuit (JsVal.vStr "f.pdf") (JsVal.vNum 5) (JsVal.vStr "5")
    JsVal.vUndefined demoEnv [demoChunk] rfl (by decide)

/-- Claim C7: LLM failure is non-fatal — a thrown model call, output the
parser cannot shape, malformed JSON, or a gate rejection each leave the
extraction stage at `null`, and with candidates located the request
still answers 200 carrying the serialized candidates (part_006 then
falls through to the direct matcher; route.ts likewise never turns an
LLM failure into a 5xx). -/
theorem c7_llm_failure_nonfatal (body : Body) (env : Env) (chunks : List ChunkRecord)
    (log : List Query) :
    (env.llmInvoke RouteA.systemMessage (RouteA.buildLlmPrompt body.answerSnippet chunks)
        = Except.error () →
      RouteA.llmExtract env body.answerSnippet chunks = none) ∧
    (env.llmInvoke RouteB.systemMessage (RouteB.buildLlmPrompt body.answerSnippet chunks)
        = Except.error () →
      RouteB.llmExtract env body.answerSnippet chunks = none) ∧
    (∀ raw, env.llmInvoke RouteB.systemMessage
        (RouteB.buildLlmPrompt body.answerSnippet chunks) = Except.ok raw →
      parseLlmResponse raw = none →
      RouteB.llmExtract env body.answerSnippet chunks = none) ∧
    ((∀ str, env.jsonParse str = Except.error ()) →
      RouteB.llmExtract env body.answerSnippet chunks = none) ∧
    (∀ (i : Int) (t : String) (tc : ChunkRecord),
      (∀ str, env.jsonParse str
        = Except.ok { chunkIndex := JsVal.vNum i, exactText := JsVal.vStr t }) →
      chunks.get? i.toNat = some tc →
      jsIncludes (normalizeForComparison (tc.content.getD ""))
        (normalizeForComparison t) = false →
      RouteB.llmExtract env body.answerSnippet chunks = none) ∧
    (truthy body.filename = true → body.page ≠ JsVal.vUndefined →
      envTruthy env.supabaseUrl = true → envTruthy env.supabaseAnonKey = true →
      RouteB.locateChunks body.filename body.page (pageValueOf body.page) body.orgUrl env
        = LocOutcome.located chunks log →
      chunks ≠ [] →
      RouteB.llmExtract env body.answerSnippet chunks = none →
      RouteB.POST body env
        = (Response.ok (RouteB.findDirectMatch chunks body.answerSnippet)
            (serializeChunks chunks), log)) ∧
    (truthy body.filename = true → body.page ≠ JsVal.vUndefined →
      envTruthy env.supabaseUrl = true → envTruthy env.supabaseAnonKey = true →
      RouteA.locateChunks body.filename (pageValueOf body.page) body.orgUrl env
        = LocOutcome.located chunks log →
      chunks ≠ [] →
      ∃ hl, RouteA.POST body env = (Response.ok hl (serializeChunks chunks), log)) := by
  refine ⟨?_, ?_, ?_, ?_, ?_, ?_, ?_⟩
  · exact routeA_llm_invoke_fail env body.answerSnippet chunks
  · exact routeB_llm_invoke_fail env body.answerSnippet chunks
  · exact fun raw hinv hpr => routeB_llm_parse_fail env body.answerSnippet chunks raw hinv hpr
  · exact routeB_llm_json_fail env body.answerSnippet chunks
  · exact fun i t tc hjson hget hsub =>
      routeB_llm_gate_fail env body.answerSnippet chunks i t tc hjson hget hsub
  · intro hf hp hu hk hloc hne hllm
    rw [routeB_post_located body env chunks log hf hp hu hk hloc hne]
    by_cases hkey : envTruthy env.openaiKey = true
    · rw [if_pos hkey, hllm]
    · rw [if_neg hkey]
  · intro hf hp hu hk hloc hne
    exact ⟨_, routeA_post_located body env chunks log hf hp hu hk hloc hne⟩

theorem c7_llm_failure_nonfatal_witness :
    RouteB.llmExtract demoEnv "ab" [demoChunk] = none ∧
    RouteB.POST demoBody demoEnv
      = (Response.ok (RouteB.findDirectMatch [demoChunk] "ab") (serializeChunks [demoChunk]),
         [tier1Query (JsVal.vStr "f.pdf") (JsVal.vStr "5") JsVal.vUndefined]) :=
  ⟨(c7_llm_failure_nonfatal demoBody demoEnv [demoChunk]
      [tier1Query (JsVal.vStr "f.pdf") (JsVal.vStr "5") JsVal.vUndefined]).2.1 rfl,
   (c7_llm_failure_nonfatal demoBody demoEnv [demoChunk]
      [tier1Query (JsVal.vStr "f.pdf") (JsVal.vStr "5") JsVal.vUndefined]).2.2.2.2.2.1
     rfl (by decide) rfl rfl rfl (by decide)
     ((c7_llm_failure_nonfatal demoBody demoEnv [demoChunk]
        [tier1Query (JsVal.vStr "f.pdf") (JsVal.vStr "5") JsVal.vUndefined]).2.1 rfl)⟩

/-- Claim C9: verbatim highlight invariant of route.ts — every non-null
highlight of a 200 response carries a text that occurs verbatim, as-is,
inside the raw content of the serialized candidate whose id it names. -/
theorem c9_verbatim_highlight (body : Body) (env : Env) (h : Highlight)
    (cs : List SerializedChunk) (log : List Query)
    (hpost : RouteA.POST body env = (Response.ok (some h) cs, log)) :
    ∃ sc ∈ cs, sc.id = h.chunkId ∧ h.text.data <:+: sc.text.data := by
  simp only [RouteA.POST] at hpost
  split at hpost
  · simp at hpost
  · split at hpost
    · simp at hpost
    · split at hpost
      · simp at hpost
      · next chunks log' hloc =>
        split at hpost
        · simp at hpost
        · split at hpost
          · next dm hdm =>
            simp only [Prod.mk.injEq, Response.ok.injEq, Option.some.injEq] at hpost
            rcases hpost with ⟨⟨hdmh, hcs⟩, hlog⟩
            subst hdmh
            subst hcs
            by_cases hsn : body.answerSnippet ≠ ""
            · rw [if_pos hsn] at hdm
              rcases routeA_fdm_sound chunks body.answerSnippet dm hdm with ⟨ch, hm, hid, hinf⟩
              rcases serialize_mem hm with ⟨sc, hscm, hscid, hsctext⟩
              refine ⟨sc, hscm, ?_, ?_⟩
              · rw [hscid, hid]
              · rw [hsctext]
                exact hinf
            · rw [if_neg hsn] at hdm
              cases hdm
          · next hdm =>
            simp only [Prod.mk.injEq, Response.ok.injEq] at hpost
            rcases hpost with ⟨⟨hhl, hcs⟩, hlog⟩
            subst hcs
            by_cases hcnd : body.answerSnippet ≠ "" ∧ envTruthy env.openaiKey = true
            · rw [if_pos hcnd] at hhl
              rcases routeA_llm_sound env body.answerSnippet chunks h hhl with
                ⟨n, hn, hid, hinf⟩
              rcases serialize_mem (List.get_mem chunks n hn) with ⟨sc, hscm, hscid, hsctext⟩
              refine ⟨sc, hscm, ?_, ?_⟩
              · rw [hscid, hid]
              · rw [hsctext]
                exact hinf
            · rw [if_neg hcnd] at hhl
              cases hhl

theorem c9_verbatim_highlight_witness :
    ∃ sc ∈ serializeChunks [demoChunk],
      sc.id = ({ text := "ab", chunkId := 1 } : Highlight).chunkId ∧
      ({ text := "ab", chunkId := 1 } : Highlight).text.data <:+: sc.text.data :=
  c9_verbatim_highlight demoBody demoEnv { text := "ab", chunkId := 1 }
    (serializeChunks [demoChunk])
    [tier1Query (JsVal.vStr "f.pdf") (JsVal.vStr "5") JsVal.vUndefined] rfl

/-- Claim C10: request validation edge — both handlers answer 400
exactly when `filename` is falsy or `page` is strictly `undefined`;
`null`, `0` and `''` pages pass validation, the page value is
stringified only when it is a number, and a validated configured
request proceeds to the exact-page chunk lookup first. -/
theorem c10_validation_edge (body : Body) (env : Env) :
    ((RouteA.POST body env).1 = Response.badRequest ↔
      (truthy body.filename = false ∨ body.page = JsVal.vUndefined)) ∧
    ((RouteB.POST body env).1 = Response.badRequest ↔
      (truthy body.filename = false ∨ body.page = JsVal.vUndefined)) ∧
    (∀ n : Int, pageValueOf (JsVal.vNum n) = JsVal.vStr (toString n)) ∧
    (∀ v : JsVal, (∀ n : Int, v ≠ JsVal.vNum n) → pageValueOf v = v) ∧
    (truthy body.filename = true → body.page ≠ JsVal.vUndefined →
      envTruthy env.supabaseUrl = true → envTruthy env.supabaseAnonKey = true →
      (∃ rest, (RouteA.POST body env).2
        = tier1Query body.filename (pageValueOf body.page) body.orgUrl :: rest) ∧
      (∃ rest, (RouteB.POST body env).2
        = tier1Query body.filename (pageValueOf body.page) body.orgUrl :: rest)) := by
  refine ⟨?_, ?_, ?_, ?_, ?_⟩
  · constructor
    · intro hbad
      by_contra hval
      exact routeA_post_not_bad body env hval hbad
    · intro hval
      simp only [RouteA.POST]
      rw [if_pos hval]
  · constructor
    · intro hbad
      by_contra hval
      exact routeB_post_not_bad body env hval hbad
    · intro hval
      simp only [RouteB.POST]
      rw [if_pos hval]
  · intro n
    rfl
  · intro v hv
    cases v with
    | vNum n => exact absurd rfl (hv n)
    | vUndefined => rfl
    | vNull => rfl
    | vBool b => rfl
    | vStr s => rfl
  · intro hf hp hu hk
    constructor
    · rw [routeA_post_log body env hf hp hu hk]
      exact routeA_locate_log body.filename (pageValueOf body.page) body.orgUrl env
    · rw [routeB_post_log body env hf hp hu hk]
      exact routeB_locate_log body.filename body.page (pageValueOf body.page) body.orgUrl env

theorem c10_validation_edge_witness :
    (∃ rest, (RouteA.POST demoBody demoEnv).2
      = tier1Query demoBody.filename (pageValueOf demoBody.page) demoBody.orgUrl :: rest) ∧
    (∃ rest, (RouteB.POST demoBody demoEnv).2
      = tier1Query demoBody.filename (pageValueOf demoBody.page) demoBody.orgUrl :: rest) :=
  (c10_validation_edge demoBody demoEnv).2.2.2.2 rfl (by decide) rfl rfl

/-- Claim C6 counterexample: for the numeric page `-5` with an empty
exact-page tier, the part_006 alternate-page retry queries
`metadata.loc.pageNumber` with the stringified page `"-5"`, not with
the extractable digits `"5"` as the claim demands. -/
theorem c6_counterexample :
    pageNumberFallback (JsVal.vNum (-5)) = some "-5" ∧
    firstDigitRun "-5" = some "5" ∧
    locLog (RouteB.locateChunks (JsVal.vStr "f.pdf") (JsVal.vNum (-5))
        (pageValueOf (JsVal.vNum (-5))) JsVal.vUndefined c6Env)
      = [tier1Query (JsVal.vStr "f.pdf") (JsVal.vStr "-5") JsVal.vUndefined,
         tier2Query (JsVal.vStr "f.pdf") "-5" JsVal.vUndefined,
         tier3Query (JsVal.vStr "f.pdf") JsVal.vUndefined] ∧
    tier2Query (JsVal.vStr "f.pdf") "-5" JsVal.vUndefined
      ≠ tier2Query (JsVal.vStr "f.pdf") "5" JsVal.vUndefined :=
  ⟨rfl, by decide, rfl, by decide⟩

/-- Claim C6 (amended): when tier 1 is empty, the part_006 locator
retries `metadata.loc.pageNumber` with `pageNumberFallback page` — the
first digit run of a string page, but the whole stringified value of a
numeric page (equal to its digits exactly for the nonnegative pages) —
issuing that query right after the exact-page query, and it returns the
tier-2 rows when any exist, without touching the capped tier. -/
theorem c6_tier2_amended (f p pv org : JsVal) (env : Env) (d : String)
    (h1 : env.store (tier1Query f pv org) = { data := some [], error := false })
    (hpf : pageNumberFallback p = some d) :
    (∀ s : String, pageNumberFallback (JsVal.vStr s) = firstDigitRun s) ∧
    (∀ n : Int, pageNumberFallback (JsVal.vNum n) = some (toString n)) ∧
    (∃ rest, locLog (RouteB.locateChunks f p pv org env)
      = tier1Query f pv org :: tier2Query f d org :: rest) ∧
    (∀ l, (env.store (tier2Query f d org)).data = some l → l ≠ [] →
      RouteB.locateChunks f p pv org env
        = LocOutcome.located l [tier1Query f pv org, tier2Query f d org]) :=
  ⟨fun _ => rfl, fun _ => rfl, routeB_locate_log2 f p pv org env d h1 hpf,
   fun l h2 hne => routeB_locate_tier2 f p pv org env d l h1 hpf h2 hne⟩

theorem c6_tier2_amended_witness :
    RouteB.locateChunks (JsVal.vStr "f.pdf") (JsVal.vNum 5) (JsVal.vStr "5")
        JsVal.vUndefined c6Env2
      = LocOutcome.located [demoChunk]
        [tier1Query (JsVal.vStr "f.pdf") (JsVal.vStr "5") JsVal.vUndefined,
         tier2Query (JsVal.vStr "f.pdf") "5" JsVal.vUndefined] :=
  (c6_tier2_amended (JsVal.vStr "f.pdf") (JsVal.vNum 5) (JsVal.vStr "5") JsVal.vUndefined
    c6Env2 "5" rfl rfl).2.2.2 [demoChunk] rfl (by decide)
